import Mathlib

/-!
Verification of parkr/go-issue-mirror against its specification.

The repository holds two near-identical copies of one Go program that
mirrors the open issues (and their comments) of a fixed GitHub repository
into a local tree of JSON files:

  * `src/cmd/mirrorjekyllissues/mirrorjekyllissues.go` — the copy that
    buffers its log messages in a `debugLogger` and only prints the buffer
    to stderr on a fatal error; modelled below in namespace `M1`.
  * `src/unnamed/part_000` — the copy that logs through the standard `log`
    package (timestamped lines printed to stderr as they are emitted);
    modelled below in namespace `M2`.

The embedding is a shallow, fuel-based state-passing translation:

  * Go pointers that may be nil (`Issue.Number`, `Issue.Comments`,
    `IssueComment.ID`) become `Option Int`; dereferencing `none` is a panic
    outcome.
  * `json.Marshal` of an issue/comment record is modelled as an injective
    constructor of `Content` (records are opaque serializable data; the
    `json.Marshal` error branch of the source is unreachable for these
    record types and is noted where it occurs).
  * The filesystem is a map from derived paths to file contents plus a map
    from derived directories to permission bits, together with a
    chronological trace of the effectful calls (MkdirAll, WriteFile and the
    two list API calls).
  * The remote API and the failure behaviour of the OS calls are an
    environment of oracles (`Env`).
  * `errgroup` fan-out/join is sequentialised: the units of one batch run
    one after another, all of them run to completion, and `Wait` returns
    the first non-nil error in that order.  A `debug.Fatalf`/`log.Fatalf`
    inside a unit aborts the whole run (outcome `fatal`); a nil-pointer
    dereference aborts it with outcome `panicked`; exhausted fuel of one of
    the two unbounded `for` loops is outcome `diverged`.
  * In the Go source the closure passed to `g.Go` in `writeIssues` reads
    `*issue.Comments` through the shared `for … range` loop variable
    `issue`, so the value it sees depends on how far the spawning loop has
    advanced when the goroutine performs the read (pre-Go-1.22 capture
    semantics).  The embedding makes this explicit: each unit receives,
    besides its own per-iteration copy `issueVal`/`num`, the issue value
    `racy` that its `*issue.Comments` read observes.  A schedule is a list
    `reads` of such observed values; `validReads` states which schedules
    the race allows (position `k` observes some position `j ≥ k` of the
    same batch).  The schedule `reads = issues` is the aligned one in which
    every goroutine reads its own issue.
-/

/-! ## Data model -/

/-- A GitHub issue as the program consumes it: the two pointer fields it
dereferences, plus the rest of the record, opaque. -/
structure Issue where
  number : Option Int
  comments : Option Int
  payload : String
deriving DecidableEq

/-- A GitHub issue comment: the pointer field the program dereferences,
plus the rest of the record, opaque. -/
structure IssueComment where
  id : Option Int
  payload : String
deriving DecidableEq

/-- JSON file contents produced by `json.Marshal` on one record. -/
inductive Content where
  | issueJSON : Issue → Content
  | commentJSON : IssueComment → Content
deriving DecidableEq

/-- `json.Marshal` on an issue record. -/
def marshalIssue (i : Issue) : Content := .issueJSON i

/-- `json.Unmarshal` of file contents back into an issue record. -/
def unmarshalIssue : Content → Option Issue
  | .issueJSON i => some i
  | _ => none

/-- `json.Marshal` on a comment record. -/
def marshalComment (c : IssueComment) : Content := .commentJSON c

/-- `json.Unmarshal` of file contents back into a comment record. -/
def unmarshalComment : Content → Option IssueComment
  | .commentJSON c => some c
  | _ => none

/-- Derived file paths of the local store (`root.IssueJSONFile num` and
`root.IssueCommentFile num id`): deterministic injective functions of the
identifiers. -/
inductive MPath where
  | issueFile : Int → MPath
  | commentFile : Int → Int → MPath
deriving DecidableEq

/-- Derived directories: `filepath.Dir(root.IssueJSONFile num)` and
`root.IssueCommentsDir num`. -/
inductive MDir where
  | issueParentDir : Int → MDir
  | commentsDir : Int → MDir
deriving DecidableEq

/-- One effectful call, in chronological order of the run. -/
inductive Event where
  | mkdirAll : MDir → Nat → Event
  | writeFile : MPath → Content → Nat → Event
  | listIssues : Nat → Event
  | listComments : Int → Nat → Event
deriving DecidableEq

/-- The local filesystem plus the chronological trace of effectful calls.
File and directory permission bits are recorded (0644 = 420, 0755 = 493). -/
structure FS where
  files : MPath → Option (Content × Nat)
  dirs : MDir → Option Nat
  trace : List Event

/-- `os.MkdirAll dir perm`: creates the directory with the given permission
bits if absent, leaves it untouched if present; the call is recorded. -/
def FS.mkdirAll (fs : FS) (d : MDir) (perm : Nat) : FS :=
  { fs with
    dirs := fun q => if q = d then some ((fs.dirs d).getD perm) else fs.dirs q
    trace := fs.trace ++ [Event.mkdirAll d perm] }

/-- `ioutil.WriteFile path data perm`: truncates/creates the file with the
given contents; the call is recorded. -/
def FS.writeFile (fs : FS) (p : MPath) (c : Content) (perm : Nat) : FS :=
  { fs with
    files := fun q => if q = p then some (c, perm) else fs.files q
    trace := fs.trace ++ [Event.writeFile p c perm] }

/-- Record a list API call in the trace. -/
def FS.callEvent (fs : FS) (e : Event) : FS :=
  { fs with trace := fs.trace ++ [e] }

/-- The empty filesystem with an empty trace. -/
def FS.init : FS := ⟨fun _ => none, fun _ => none, []⟩

/-- Errors returned by the per-item write functions. -/
inductive Err where
  | mkdirFailed : MDir → Err
  | writeFailed : MPath → Err
deriving DecidableEq

/-- Log messages, one constructor per `Printf`/`Fatalf` format string of the
source, carrying the formatted arguments that the model tracks. -/
inductive Msg where
  | processingIssues : Nat → Msg
  | startedProcessing : Int → Msg
  | listCommentsCall : Int → Nat → Msg
  | listCommentsFatal : Int → Nat → Msg
  | writeCommentsFatal : Int → Nat → Msg
  | processingComments : Nat → Int → Msg
  | finishedProcessing : Int → Msg
  | listByRepoCall : Nat → Msg
  | listIssuesFatal : Nat → Msg
  | writeIssuesFatal : Nat → Msg
  | noMorePages : Msg
  | openRootFatal : Msg
deriving DecidableEq

/-- The simulated world: the remote API pages and the failure oracles of
the OS calls.  `issuePages p = (items, nextPage)` is the response of
`client.Issues.ListByRepo` for page `p`; `commentPages num p` likewise for
`client.Issues.ListComments` on issue `num`.  `issuesErr`/`commentsErr`
signal a transport error of the corresponding call; `mkdirOk`/`writeOk`
signal success of `os.MkdirAll`/`ioutil.WriteFile`. -/
structure Env where
  openOk : Bool
  issuePages : Nat → List Issue × Nat
  issuesErr : Nat → Bool
  commentPages : Int → Nat → List IssueComment × Nat
  commentsErr : Int → Nat → Bool
  mkdirOk : MDir → Bool
  writeOk : MPath → Bool

/-- Outcome of one comment-write unit or of `writeComments`. -/
inductive CRes where
  | res : Option Err → CRes
  | panicked : CRes
deriving DecidableEq

/-- Outcome of one issue unit (the closure passed to `g.Go` in
`writeIssues`). -/
inductive URes where
  | success : URes
  | failure : Err → URes
  | fatal : URes
  | panicked : URes
  | diverged : URes
deriving DecidableEq

/-- Outcome of `writeIssues` (`g.Wait` plus the abnormal terminations). -/
inductive BatchRes where
  | res : Option Err → BatchRes
  | fatal : BatchRes
  | panicked : BatchRes
  | diverged : BatchRes
deriving DecidableEq

/-- Outcome of one whole run of `main`. -/
inductive RunRes where
  | ok : RunRes
  | fatal : RunRes
  | panicked : RunRes
  | diverged : RunRes
deriving DecidableEq

/-- Which schedules the `*issue.Comments` race admits: the unit spawned at
position `k` observes the loop variable at some position `j ≥ k` of the
same batch. -/
def validReads (issues reads : List Issue) : Prop :=
  reads.length = issues.length ∧
    ∀ k, k < issues.length →
      ∃ j, k ≤ j ∧ j < issues.length ∧ reads[k]? = issues[j]?

/-! ## M1: the `debugLogger` copy (`src/cmd/mirrorjekyllissues`) -/

namespace M1

/-- Program state: filesystem, the logical clock stamped onto log lines
(`debugLogger.nowPrefix`), the in-memory message buffer of `debugLogger`,
and what has been printed to stderr. -/
structure St where
  fs : FS
  clock : Nat
  buffer : List (Nat × Msg)
  stderr : List (Nat × Msg)

/-- `debug.Printf`: append a timestamped message to the in-memory buffer.
Nothing is printed. -/
def St.printf (s : St) (m : Msg) : St :=
  { s with buffer := s.buffer ++ [(s.clock, m)], clock := s.clock + 1 }

/-- `debug.Fatalf`: record the message, then print the whole buffer to
stderr (`fmt.Fprintln(os.Stderr, d.String())`); the caller exits. -/
def St.fatalf (s : St) (m : Msg) : St :=
  let s' := s.printf m
  { s' with stderr := s'.stderr ++ s'.buffer }

/-- Update the filesystem component of the state. -/
def St.withFS (s : St) (fs : FS) : St := { s with fs := fs }

/-- The initial state. -/
def St.init : St := ⟨FS.init, 0, [], []⟩

/-- One comment unit: the closure passed to `g.Go` in `writeComments`.
It dereferences `*commentVal.ID` (panic on nil), marshals the record (the
`json.Marshal` error branch is unreachable for these records) and writes
the file with permission bits 0644. -/
def commentUnit (env : Env) (num : Int) (s : St) (c : IssueComment) : St × CRes :=
  match c.id with
  | none => (s, .panicked)
  | some cid =>
    let p := MPath.commentFile num cid
    if env.writeOk p then
      (s.withFS (s.fs.writeFile p (marshalComment c) 420), .res none)
    else
      (s, .res (some (.writeFailed p)))

/-- The fan-out/join of `writeComments`: every unit runs, `g.Wait` returns
the first non-nil error; a panic in a unit kills the process. -/
def commentsJoin (env : Env) (num : Int) : St → List IssueComment → St × CRes
  | s, [] => (s, .res none)
  | s, c :: rest =>
    match commentUnit env num s c with
    | (s1, .panicked) => (s1, .panicked)
    | (s1, .res r) =>
      match commentsJoin env num s1 rest with
      | (s2, .panicked) => (s2, .panicked)
      | (s2, .res r2) =>
        (s2, .res (match r with
                   | some e => some e
                   | none => r2))

/-- `writeComments`: logs (dereferencing `*issue.Number`, panic on nil)
then fans out one unit per comment. -/
def writeComments (env : Env) (s : St) (issue : Issue)
    (comments : List IssueComment) : St × CRes :=
  match issue.number with
  | none => (s, .panicked)
  | some num =>
    let s := s.printf (.processingComments comments.length num)
    commentsJoin env num s comments

/-- The inner `for` loop of the issue unit: fetch a page of comments
(`client.Issues.ListComments`), `debug.Fatalf` on a list error or on a
`writeComments` error, stop when the response carries next page 0,
otherwise continue at the returned next page.  Fuel bounds the number of
iterations; running out is divergence. -/
def commentLoop (env : Env) (num : Int) (issue : Issue) :
    Nat → St → Nat → St × URes
  | 0, s, _ => (s, .diverged)
  | fuel+1, s, page =>
    let s := s.printf (.listCommentsCall num page)
    let s := s.withFS (s.fs.callEvent (.listComments num page))
    if env.commentsErr num page then
      (s.fatalf (.listCommentsFatal num page), .fatal)
    else
      let pr := env.commentPages num page
      match writeComments env s issue pr.1 with
      | (s1, .panicked) => (s1, .panicked)
      | (s1, .res (some _)) => (s1.fatalf (.writeCommentsFatal num page), .fatal)
      | (s1, .res none) =>
        if pr.2 = 0 then (s1, .success)
        else commentLoop env num issue fuel s1 pr.2

/-- One issue unit: the closure passed to `g.Go` in `writeIssues`, for the
per-iteration copies `issue` (= `issueVal`) and `num`, and the issue value
`racy` observed by the `*issue.Comments` read through the shared loop
variable. -/
def issueUnit (env : Env) (fuel : Nat) (s : St) (issue : Issue) (num : Int)
    (racy : Issue) : St × URes :=
  let s := s.printf (.startedProcessing num)
  let d := MDir.issueParentDir num
  if env.mkdirOk d then
    let s := s.withFS (s.fs.mkdirAll d 493)
    let p := MPath.issueFile num
    if env.writeOk p then
      let s := s.withFS (s.fs.writeFile p (marshalIssue issue) 420)
      match racy.comments with
      | none => (s, .panicked)
      | some cnt =>
        if cnt ≤ 0 then (s, .success)
        else
          let dc := MDir.commentsDir num
          if env.mkdirOk dc then
            let s := s.withFS (s.fs.mkdirAll dc 493)
            match commentLoop env num issue fuel s 0 with
            | (s1, .success) => (s1.printf (.finishedProcessing num), .success)
            | (s1, r) => (s1, r)
          else (s, .failure (.mkdirFailed dc))
    else (s, .failure (.writeFailed p))
  else (s, .failure (.mkdirFailed d))

/-- The spawn loop plus `g.Wait` of `writeIssues`, over the list of pairs
(per-iteration issue copy, value observed by its racy `*issue.Comments`
read).  `num := *issueVal.Number` is dereferenced in the spawning loop
(panic on nil); every unit runs to completion and `Wait` returns the first
non-nil error. -/
def issuesJoin (env : Env) (fuel : Nat) : St → List (Issue × Issue) → St × BatchRes
  | s, [] => (s, .res none)
  | s, (issue, racy) :: rest =>
    match issue.number with
    | none => (s, .panicked)
    | some num =>
      match issueUnit env fuel s issue num racy with
      | (s1, .success) => issuesJoin env fuel s1 rest
      | (s1, .failure e) =>
        match issuesJoin env fuel s1 rest with
        | (s2, .res _) => (s2, .res (some e))
        | (s2, r) => (s2, r)
      | (s1, .fatal) => (s1, .fatal)
      | (s1, .panicked) => (s1, .panicked)
      | (s1, .diverged) => (s1, .diverged)

/-- `writeIssues`: logs, then spawns one unit per fetched issue and joins. -/
def writeIssues (env : Env) (fuel : Nat) (s : St) (issues reads : List Issue) :
    St × BatchRes :=
  let s := s.printf (.processingIssues issues.length)
  issuesJoin env fuel s (issues.zip reads)

/-- The outer `for` loop of `main`: fetch a page of issues
(`client.Issues.ListByRepo`), `debug.Fatalln` on a list error or a
`writeIssues` error, log `no more pages` and stop when the response carries
next page 0, otherwise continue at the returned next page. -/
def mainLoop (env : Env) (fuel : Nat) (reads : Nat → List Issue) :
    Nat → St → Nat → St × RunRes
  | 0, s, _ => (s, .diverged)
  | f+1, s, page =>
    let s := s.printf (.listByRepoCall page)
    let s := s.withFS (s.fs.callEvent (.listIssues page))
    if env.issuesErr page then
      (s.fatalf (.listIssuesFatal page), .fatal)
    else
      let pr := env.issuePages page
      match writeIssues env fuel s pr.1 (reads page) with
      | (s1, .res none) =>
        if pr.2 = 0 then (s1.printf .noMorePages, .ok)
        else mainLoop env fuel reads f s1 pr.2
      | (s1, .res (some _)) => (s1.fatalf (.writeIssuesFatal page), .fatal)
      | (s1, .fatal) => (s1, .fatal)
      | (s1, .panicked) => (s1, .panicked)
      | (s1, .diverged) => (s1, .diverged)

/-- `main`: open the issue cache root (`jekyllissues.Open`, fatal on
failure), then run the outer pagination loop from page 0. -/
def mainRun (env : Env) (fuel : Nat) (reads : Nat → List Issue) (s : St) :
    St × RunRes :=
  if env.openOk then mainLoop env fuel reads fuel s 0
  else (s.fatalf .openRootFatal, .fatal)

end M1

/-! ## M2: the `log`-package copy (`src/unnamed/part_000`)

Identical traversal-and-write logic; the only differences are the logger
(`log.Printf` prints a timestamped line to stderr immediately,
`log.Fatalf`/`log.Fatalln` print one and exit) and the pre-context
signatures of the two list calls, which have the same modelled behaviour. -/

namespace M2

/-- Program state: filesystem, the logical clock stamped onto log lines,
and stderr (the `log` package prints every line as it is emitted). -/
structure St where
  fs : FS
  clock : Nat
  stderr : List  (Nat × Msg)

/-- `log.Printf`: print a timestamped line to stderr. -/
def St.printf (s : St) (m : Msg) : St :=
  { s with stderr := s.stderr ++ [(s.clock, m)], clock := s.clock + 1 }

/-- `log.Fatalf`: print a timestamped line to stderr; the caller exits. -/
def St.fatalf (s : St) (m : Msg) : St := s.printf m

/-- Update the filesystem component of the state. -/
def St.withFS (s : St) (fs : FS) : St := { s with fs := fs }

/-- The initial state. -/
def St.init : St := ⟨FS.init, 0, []⟩

/-- One comment unit: the closure passed to `g.Go` in `writeComments`. -/
def commentUnit (env : Env) (num : Int) (s : St) (c : IssueComment) : St × CRes :=
  match c.id with
  | none => (s, .panicked)
  | some cid =>
    let p := MPath.commentFile num cid
    if env.writeOk p then
      (s.withFS (s.fs.writeFile p (marshalComment c) 420), .res none)
    else
      (s, .res (some (.writeFailed p)))

/-- The fan-out/join of `writeComments`. -/
def commentsJoin (env : Env) (num : Int) : St → List IssueComment → St × CRes
  | s, [] => (s, .res none)
  | s, c :: rest =>
    match commentUnit env num s c with
    | (s1, .panicked) => (s1, .panicked)
    | (s1, .res r) =>
      match commentsJoin env num s1 rest with
      | (s2, .panicked) => (s2, .panicked)
      | (s2, .res r2) =>
        (s2, .res (match r with
                   | some e => some e
                   | none => r2))

/-- `writeComments`: logs (dereferencing `*issue.Number`, panic on nil)
then fans out one unit per comment. -/
def writeComments (env : Env) (s : St) (issue : Issue)
    (comments : List IssueComment) : St × CRes :=
  match issue.number with
  | none => (s, .panicked)
  | some num =>
    let s := s.printf (.processingComments comments.length num)
    commentsJoin env num s comments

/-- The inner `for` loop of the issue unit over comment pages. -/
def commentLoop (env : Env) (num : Int) (issue : Issue) :
    Nat → St → Nat → St × URes
  | 0, s, _ => (s, .diverged)
  | fuel+1, s, page =>
    let s := s.printf (.listCommentsCall num page)
    let s := s.withFS (s.fs.callEvent (.listComments num page))
    if env.commentsErr num page then
      (s.fatalf (.listCommentsFatal num page), .fatal)
    else
      let pr := env.commentPages num page
      match writeComments env s issue pr.1 with
      | (s1, .panicked) => (s1, .panicked)
      | (s1, .res (some _)) => (s1.fatalf (.writeCommentsFatal num page), .fatal)
      | (s1, .res none) =>
        if pr.2 = 0 then (s1, .success)
        else commentLoop env num issue fuel s1 pr.2

/-- One issue unit: the closure passed to `g.Go` in `writeIssues`. -/
def issueUnit (env : Env) (fuel : Nat) (s : St) (issue : Issue) (num : Int)
    (racy : Issue) : St × URes :=
  let s := s.printf (.startedProcessing num)
  let d := MDir.issueParentDir num
  if env.mkdirOk d then
    let s := s.withFS (s.fs.mkdirAll d 493)
    let p := MPath.issueFile num
    if env.writeOk p then
      let s := s.withFS (s.fs.writeFile p (marshalIssue issue) 420)
      match racy.comments with
      | none => (s, .panicked)
      | some cnt =>
        if cnt ≤ 0 then (s, .success)
        else
          let dc := MDir.commentsDir num
          if env.mkdirOk dc then
            let s := s.withFS (s.fs.mkdirAll dc 493)
            match commentLoop env num issue fuel s 0 with
            | (s1, .success) => (s1.printf (.finishedProcessing num), .success)
            | (s1, r) => (s1, r)
          else (s, .failure (.mkdirFailed dc))
    else (s, .failure (.writeFailed p))
  else (s, .failure (.mkdirFailed d))

/-- The spawn loop plus `g.Wait` of `writeIssues`. -/
def issuesJoin (env : Env) (fuel : Nat) : St → List (Issue × Issue) → St × BatchRes
  | s, [] => (s, .res none)
  | s, (issue, racy) :: rest =>
    match issue.number with
    | none => (s, .panicked)
    | some num =>
      match issueUnit env fuel s issue num racy with
      | (s1, .success) => issuesJoin env fuel s1 rest
      | (s1, .failure e) =>
        match issuesJoin env fuel s1 rest with
        | (s2, .res _) => (s2, .res (some e))
        | (s2, r) => (s2, r)
      | (s1, .fatal) => (s1, .fatal)
      | (s1, .panicked) => (s1, .panicked)
      | (s1, .diverged) => (s1, .diverged)

/-- `writeIssues`: logs, then spawns one unit per fetched issue and joins. -/
def writeIssues (env : Env) (fuel : Nat) (s : St) (issues reads : List Issue) :
    St × BatchRes :=
  let s := s.printf (.processingIssues issues.length)
  issuesJoin env fuel s (issues.zip reads)

/-- The outer `for` loop of `main` over issue pages. -/
def mainLoop (env : Env) (fuel : Nat) (reads : Nat → List Issue) :
    Nat → St → Nat → St × RunRes
  | 0, s, _ => (s, .diverged)
  | f+1, s, page =>
    let s := s.printf (.listByRepoCall page)
    let s := s.withFS (s.fs.callEvent (.listIssues page))
    if env.issuesErr page then
      (s.fatalf (.listIssuesFatal page), .fatal)
    else
      let pr := env.issuePages page
      match writeIssues env fuel s pr.1 (reads page) with
      | (s1, .res none) =>
        if pr.2 = 0 then (s1.printf .noMorePages, .ok)
        else mainLoop env fuel reads f s1 pr.2
      | (s1, .res (some _)) => (s1.fatalf (.writeIssuesFatal page), .fatal)
      | (s1, .fatal) => (s1, .fatal)
      | (s1, .panicked) => (s1, .panicked)
      | (s1, .diverged) => (s1, .diverged)

/-- `main`: open the issue cache root, then run the outer loop from page 0. -/
def mainRun (env : Env) (fuel : Nat) (reads : Nat → List Issue) (s : St) :
    St × RunRes :=
  if env.openOk then mainLoop env fuel reads fuel s 0
  else (s.fatalf .openRootFatal, .fatal)

end M2

/-- The forgetful map from the `debugLogger` copy's state to the
`log`-package copy's state: same filesystem and clock, and the in-memory
buffer in place of the stream of printed lines (each `debug.Printf`
buffers exactly the line the corresponding `log.Printf` prints). -/
def toLog (s : M1.St) : M2.St := ⟨s.fs, s.clock, s.buffer⟩

/-! ## Derived notions used to state the claims -/

/-- Number of page fetches a cursor loop performs: fetch page `p`; stop if
the response carries next page 0, else continue at the returned page. -/
def pageCount (nextF : Nat → Nat) : Nat → Nat → Nat
  | 0, _ => 0
  | fuel+1, p => 1 + (if nextF p = 0 then 0 else pageCount nextF fuel (nextF p))

/-- Next-page function of a simulated source with pages numbered `1..K`:
requesting page 0 returns the first page (as the GitHub API does), the
response for page `p < K` points at page `p + 1`, and the response for
page `K` carries next page 0. -/
def simNext (K : Nat) (p : Nat) : Nat :=
  if max p 1 < K then max p 1 + 1 else 0

/-- Is this trace event an issue-page fetch (`ListByRepo`)? -/
def isListIssues : Event → Bool
  | .listIssues _ => true
  | _ => false

/-- Is this trace event a comment-page fetch (`ListComments`) for `num`? -/
def isListCommentsFor (num : Int) : Event → Bool
  | .listComments n _ => n = num
  | _ => false

/-- Is this trace event a comment-page fetch for any issue? -/
def isListComments : Event → Bool
  | .listComments _ _ => true
  | _ => false

/-- A unit outcome that `errgroup` can observe: the unit returned (either
nil or an error) rather than killing the process. -/
def UNormal (r : URes) : Prop := r = .success ∨ ∃ e, r = .failure e

/-- First error among the unit outcomes, in spawn order — the value
`errgroup.Wait` reports. -/
def firstErr : List URes → Option Err
  | [] => none
  | .failure e :: _ => some e
  | _ :: rest => firstErr rest

/-- First error among comment-unit outcomes, in spawn order. -/
def firstCErr : List CRes → Option Err
  | [] => none
  | .res (some e) :: _ => some e
  | _ :: rest => firstCErr rest

/-- The content the last write to `q` in `ws` put there, if any. -/
def writesLookup (ws : List (MPath × Content)) (q : MPath) : Option Content :=
  ws.foldl (fun acc w => if w.1 = q then some w.2 else acc) none

/-- The file map after replaying the writes `ws` (each with permission bits
0644) on top of `f0`. -/
def filesAfter (ws : List (MPath × Content)) (f0 : MPath → Option (Content × Nat))
    (q : MPath) : Option (Content × Nat) :=
  match writesLookup ws q with
  | some c => some (c, 420)
  | none => f0 q

/-- The comment files one page of comments produces for issue `num`. -/
def commentPageWrites (num : Int) (cs : List IssueComment) : List (MPath × Content) :=
  cs.filterMap (fun c => c.id.map (fun cid => (MPath.commentFile num cid, marshalComment c)))

/-- The comment pages the inner cursor loop visits for issue `num`,
starting at page `p`. -/
def commentLoopPages (env : Env) (num : Int) : Nat → Nat → List (List IssueComment)
  | 0, _ => []
  | fuel+1, p =>
    (env.commentPages num p).1 ::
      (if (env.commentPages num p).2 = 0 then []
       else commentLoopPages env num fuel (env.commentPages num p).2)

/-- All comment files the inner cursor loop writes for issue `num`. -/
def commentLoopWrites (env : Env) (num : Int) (fuel : Nat) (p : Nat) :
    List (MPath × Content) :=
  (commentLoopPages env num fuel p).flatMap (commentPageWrites num)

/-- The files one issue unit writes when it succeeds: the issue file, then
— if the comment-count value it observed is positive — the comment files. -/
def issueUnitWrites (env : Env) (fuel : Nat) (issue : Issue) (num : Int)
    (racy : Issue) : List (MPath × Content) :=
  (MPath.issueFile num, marshalIssue issue) ::
    (match racy.comments with
     | none => []
     | some cnt => if cnt ≤ 0 then [] else commentLoopWrites env num fuel 0)

/-- The files one batch writes when all its units succeed. -/
def batchWrites (env : Env) (fuel : Nat) (prs : List (Issue × Issue)) :
    List (MPath × Content) :=
  prs.flatMap (fun pr =>
    match pr.1.number with
    | none => []
    | some num => issueUnitWrites env fuel pr.1 num pr.2)

/-- The files a successful run writes, page by page from page `p`. -/
def driverWrites (env : Env) (fuel : Nat) (reads : Nat → List Issue) :
    Nat → Nat → List (MPath × Content)
  | 0, _ => []
  | f+1, p =>
    batchWrites env fuel ((env.issuePages p).1.zip (reads p)) ++
      (if (env.issuePages p).2 = 0 then []
       else driverWrites env fuel reads f (env.issuePages p).2)

/-- All issues the outer cursor loop fetches, page by page from page `p`. -/
def runPagesIssues (env : Env) : Nat → Nat → List Issue
  | 0, _ => []
  | f+1, p =>
    (env.issuePages p).1 ++
      (if (env.issuePages p).2 = 0 then []
       else runPagesIssues env f (env.issuePages p).2)

/-- All comments the source returns for issue `num` across its pages. -/
def runCommentsFor (env : Env) (fuel : Nat) (num : Int) : List IssueComment :=
  (commentLoopPages env num fuel 0).flatten

/-- Directories created (`MkdirAll`) by the events of a trace. -/
def createdDirs (tr : List Event) : List MDir :=
  tr.filterMap (fun e => match e with | .mkdirAll d _ => some d | _ => none)

/-- Every comment-file write in the trace is preceded by the creation of
that issue's comments directory. -/
def commentDirFirst (tr : List Event) : Prop :=
  ∀ j num id c perm, tr[j]? = some (.writeFile (.commentFile num id) c perm) →
    MDir.commentsDir num ∈ createdDirs (tr.take j)

/-- An environment in which the cache root opens, every remote call
answers, and every OS call succeeds; the responses are the two given
page functions. -/
def benignEnv (ip : Nat → List Issue × Nat)
    (cp : Int → Nat → List IssueComment × Nat) : Env :=
  ⟨true, ip, fun _ => false, cp, fun _ _ => false, fun _ => true, fun _ => true⟩

namespace M1

/-- State-independent outcome of the issue unit spawned for the pair
`pr = (issueVal, racy)`: `panicked` when `*issueVal.Number` is nil, else the
unit's own outcome. -/
def unitResOf (env : Env) (fuel : Nat) (pr : Issue × Issue) : URes :=
  match pr.1.number with
  | none => .panicked
  | some num => (issueUnit env fuel St.init pr.1 num pr.2).2

/-- State-independent outcome of the comment unit spawned for `c`. -/
def cUnitResOf (env : Env) (num : Int) (c : IssueComment) : CRes :=
  (commentUnit env num St.init c).2

end M1

/-! ## Concrete scenarios used as counterexamples and witnesses -/

/-- An issue numbered 1 declaring 0 comments. -/
def iZero : Issue := ⟨some 1, some 0, ""⟩

/-- An issue numbered 1 declaring -1 comments. -/
def iNeg : Issue := ⟨some 1, some (-1), ""⟩

/-- An issue numbered 1 declaring 1 comment. -/
def iOne : Issue := ⟨some 1, some 1, ""⟩

/-- An issue numbered 2 declaring 2 comments. -/
def iTwo : Issue := ⟨some 2, some 2, ""⟩

/-- An issue numbered 2 declaring 0 comments. -/
def iTwoZero : Issue := ⟨some 2, some 0, ""⟩

/-- An issue numbered 1 whose `Comments` pointer is nil. -/
def iNilComments : Issue := ⟨some 1, none, ""⟩

/-- A comment with id `n`. -/
def cm (n : Int) : IssueComment := ⟨some n, ""⟩

/-- Scenario for C6: one page with a 0-comment issue followed by a
2-comment issue; the source has comments only for issue 2. -/
def envC6 : Env :=
  benignEnv (fun p => if p = 0 then ([iZero, iTwo], 0) else ([], 0))
    (fun num _ => if num = 2 then ([cm 20, cm 21], 0) else ([], 0))

/-- Schedule for C6: both goroutines observe the last issue of the batch
(the spawning loop has finished before either performs its read). -/
def readsC6 : Nat → List Issue := fun _ => [iTwo, iTwo]

/-- Scenario for C9: as C6 but the first issue declares -1 comments. -/
def envC9 : Env :=
  benignEnv (fun p => if p = 0 then ([iNeg, iTwo], 0) else ([], 0))
    (fun num _ => if num = 2 then ([cm 20, cm 21], 0) else ([], 0))

/-- Scenario for C3: one page with a 1-comment issue followed by a
0-comment issue; the source has one comment (id 10) for issue 1. -/
def envC3 : Env :=
  benignEnv (fun p => if p = 0 then ([iOne, iTwoZero], 0) else ([], 0))
    (fun num _ => if num = 1 then ([cm 10], 0) else ([], 0))

/-- Schedule for C3: both goroutines observe the last issue of the batch. -/
def readsC3 : Nat → List Issue := fun _ => [iTwoZero, iTwoZero]

/-- Scenario for C5: one page with a single 0-comment issue. -/
def envC5 : Env :=
  benignEnv (fun p => if p = 0 then ([iZero], 0) else ([], 0))
    (fun _ _ => ([], 0))

/-- Aligned schedule for C5. -/
def readsC5 : Nat → List Issue := fun p => if p = 0 then [iZero] else []

/-- Scenario for C10: a benign environment with no comments anywhere. -/
def envC10 : Env :=
  benignEnv (fun _ => ([], 0)) (fun _ _ => ([], 0))

/-- Scenario for C1: an empty-paged simulated source whose issue listing
has 2 pages and whose comment listings have 3 pages. -/
def envC1 : Env :=
  benignEnv (fun p => ([], simNext 2 p)) (fun _ p => ([], simNext 3 p))

/-- An issue numbered 5 declaring 9 comments, for the C1 witness. -/
def iFive : Issue := ⟨some 5, some 9, ""⟩

/-- Scenario for C2: a benign environment in which writing the issue file
of issue 2 fails. -/
def envC2 : Env :=
  { benignEnv (fun _ => ([], 0)) (fun _ _ => ([], 0)) with
    writeOk := fun p => p != MPath.issueFile 2 }

/-- An issue whose `Number` pointer is nil. -/
def iNilNumber : Issue := ⟨none, some 0, ""⟩

/-- Scenario for C7/C4 witnesses: one page with a single 1-comment issue,
whose single comment has id 10. -/
def envC7 : Env :=
  benignEnv (fun p => if p = 0 then ([iOne], 0) else ([], 0))
    (fun num _ => if num = 1 then ([cm 10], 0) else ([], 0))

/-- Aligned schedule for `envC7`. -/
def readsC7 : Nat → List Issue := fun p => if p = 0 then [iOne] else []

/-! ## Theorems -/

/-- C6 (code bug): an issue whose comment count is 0 can nevertheless get a
comments directory and a comment-list call.  Concrete run: one page with
issues 1 (0 comments) and 2 (2 comments); both goroutines perform their
`*issue.Comments` read after the spawning loop has moved the shared loop
variable to the last issue — an admissible schedule of the race.  The run
succeeds, yet the comments directory of issue 1 is created and
`ListComments` is called for issue 1, contradicting the claim. -/
theorem c6_race_demo :
    validReads [iZero, iTwo] [iTwo, iTwo] ∧
    (envC6.issuePages 0).1 = [iZero, iTwo] ∧
    iZero.number = some 1 ∧ iZero.comments = some 0 ∧
    readsC6 0 = [iTwo, iTwo] ∧
    (M1.mainRun envC6 5 readsC6 M1.St.init).2 = RunRes.ok ∧
    (M1.mainRun envC6 5 readsC6 M1.St.init).1.fs.dirs (MDir.commentsDir 1) = some 493 ∧
    Event.listComments 1 0 ∈ (M1.mainRun envC6 5 readsC6 M1.St.init).1.fs.trace := by
  refine ⟨⟨rfl, ?_⟩, ?_⟩
  · intro k hk
    simp only [List.length] at hk
    interval_cases k
    · exact ⟨1, by decide, by decide, rfl⟩
    · exact ⟨1, by decide, by decide, rfl⟩
  · decide

/-- C9 (code bug): an issue whose comment count is strictly negative can
nevertheless get a comments directory and a comment-list call, through the
same racy read of the shared loop variable as in `c6_race_demo`. -/
theorem c9_race_demo :
    validReads [iNeg, iTwo] [iTwo, iTwo] ∧
    (envC9.issuePages 0).1 = [iNeg, iTwo] ∧
    iNeg.number = some 1 ∧ iNeg.comments = some (-1) ∧
    (M1.mainRun envC9 5 readsC6 M1.St.init).2 = RunRes.ok ∧
    (M1.mainRun envC9 5 readsC6 M1.St.init).1.fs.dirs (MDir.commentsDir 1) = some 493 ∧
    Event.listComments 1 0 ∈ (M1.mainRun envC9 5 readsC6 M1.St.init).1.fs.trace := by
  refine ⟨⟨rfl, ?_⟩, ?_⟩
  · intro k hk
    simp only [List.length] at hk
    interval_cases k
    · exact ⟨1, by decide, by decide, rfl⟩
    · exact ⟨1, by decide, by decide, rfl⟩
  · decide

/-- C3 (code bug): a successful run can end with fewer comment files than
an issue's comment count.  Concrete run: one page with issue 1 (comment
count 1; the source holds one comment, id 10, for it) followed by issue 2
(comment count 0); both goroutines observe the last issue through the racy
read, so the guard `*issue.Comments <= 0` skips the comment phase for
issue 1.  The run succeeds, no `ListComments` call is ever made, and no
comment file for issue 1 exists, although its count is 1. -/
theorem c3_race_demo :
    validReads [iOne, iTwoZero] [iTwoZero, iTwoZero] ∧
    (envC3.issuePages 0).1 = [iOne, iTwoZero] ∧
    iOne.number = some 1 ∧ iOne.comments = some 1 ∧
    envC3.commentPages 1 0 = ([cm 10], 0) ∧ (cm 10).id = some 10 ∧
    (M1.mainRun envC3 5 readsC3 M1.St.init).2 = RunRes.ok ∧
    (M1.mainRun envC3 5 readsC3 M1.St.init).1.fs.files (MPath.commentFile 1 10) = none ∧
    (M1.mainRun envC3 5 readsC3 M1.St.init).1.fs.trace.countP isListComments = 0 := by
  refine ⟨⟨rfl, ?_⟩, ?_⟩
  · intro k hk
    simp only [List.length] at hk
    interval_cases k
    · exact ⟨1, by decide, by decide, rfl⟩
    · exact ⟨1, by decide, by decide, rfl⟩
  · decide

/-- C10 (counterexample): a batch containing an item whose `Comments`
pointer is nil need not panic — under the admissible schedule in which both
goroutines observe the last issue of the batch, `writeIssues` returns nil. -/
theorem c10_counterexample :
    iNilComments.comments = none ∧
    validReads [iNilComments, iTwoZero] [iTwoZero, iTwoZero] ∧
    (M1.writeIssues envC10 5 M1.St.init [iNilComments, iTwoZero]
        [iTwoZero, iTwoZero]).2 = BatchRes.res none := by
  refine ⟨rfl, ⟨rfl, ?_⟩, ?_⟩
  · intro k hk
    simp only [List.length] at hk
    interval_cases k
    · exact ⟨1, by decide, by decide, rfl⟩
    · exact ⟨1, by decide, by decide, rfl⟩
  · decide

/-- C5 (counterexample): on a fully successful run over one page holding a
single issue with 0 comments, the `log`-package copy prints `started
processing 1` but never a `finished processing` message for it (the unit
returns before that log line when the comment phase is skipped), and the
`debugLogger` copy prints nothing at all to the error stream. -/
theorem c5_counterexample :
    (envC5.issuePages 0).1 = [iZero] ∧ iZero.number = some 1 ∧
    (M2.mainRun envC5 3 readsC5 M2.St.init).2 = RunRes.ok ∧
    Msg.startedProcessing 1 ∈ (M2.mainRun envC5 3 readsC5 M2.St.init).1.stderr.map Prod.snd ∧
    Msg.finishedProcessing 1 ∉ (M2.mainRun envC5 3 readsC5 M2.St.init).1.stderr.map Prod.snd ∧
    (M1.mainRun envC5 3 readsC5 M1.St.init).2 = RunRes.ok ∧
    (M1.mainRun envC5 3 readsC5 M1.St.init).1.stderr = [] := by
  decide

/-! ## Counting page fetches (C1) -/

theorem countP_concat (tr : List Event) (e : Event) (q : Event → Bool) :
    (tr ++ [e]).countP q = tr.countP q + (if q e then 1 else 0) := by
  simp [List.countP_append, List.countP_cons]

namespace M1

theorem printf_fs (s : St) (m : Msg) : (s.printf m).fs = s.fs := rfl

theorem fatalf_fs (s : St) (m : Msg) : (s.fatalf m).fs = s.fs := rfl

theorem withFS_fs (s : St) (fs : FS) : (s.withFS fs).fs = fs := rfl

theorem commentUnit_countP (env : Env) (num : Int) (s : St) (c : IssueComment)
    (q : Event → Bool)
    (hqW : ∀ pth ct pm, q (Event.writeFile pth ct pm) = false) :
    ((commentUnit env num s c).1).fs.trace.countP q = s.fs.trace.countP q := by
  unfold commentUnit
  cases c.id with
  | none => rfl
  | some cid =>
    dsimp only
    split
    · simp [St.withFS, FS.writeFile, countP_concat, hqW]
    · rfl

theorem commentsJoin_countP (env : Env) (num : Int) (s : St)
    (cs : List IssueComment) (q : Event → Bool)
    (hqW : ∀ pth ct pm, q (Event.writeFile pth ct pm) = false) :
    ((commentsJoin env num s cs).1).fs.trace.countP q = s.fs.trace.countP q := by
  induction cs generalizing s with
  | nil => rfl
  | cons c rest ih =>
    unfold commentsJoin
    rcases h : commentUnit env num s c with ⟨s1, r⟩
    have h1 : s1.fs.trace.countP q = s.fs.trace.countP q := by
      have := commentUnit_countP env num s c q hqW
      rw [h] at this; exact this
    cases r with
    | panicked => simpa using h1
    | res r0 =>
      dsimp only
      rcases h2 : commentsJoin env num s1 rest with ⟨s2, r2⟩
      have h3 : s2.fs.trace.countP q = s1.fs.trace.countP q := by
        have := ih s1
        rw [h2] at this; exact this
      cases r2 with
      | panicked => simpa using h3.trans h1
      | res r3 => simpa using h3.trans h1

theorem writeComments_countP (env : Env) (s : St) (issue : Issue)
    (cs : List IssueComment) (q : Event → Bool)
    (hqW : ∀ pth ct pm, q (Event.writeFile pth ct pm) = false) :
    ((writeComments env s issue cs).1).fs.trace.countP q = s.fs.trace.countP q := by
  unfold writeComments
  cases issue.number with
  | none => rfl
  | some num =>
    dsimp only
    exact commentsJoin_countP env num _ cs q hqW

end M1

namespace M1

theorem commentLoop_countP (env : Env) (num : Int) (issue : Issue)
    (fuel : Nat) (s : St) (page : Nat) (q : Event → Bool)
    (hqW : ∀ pth ct pm, q (Event.writeFile pth ct pm) = false)
    (hqC : ∀ n p, q (Event.listComments n p) = false) :
    ((commentLoop env num issue fuel s page).1).fs.trace.countP q
      = s.fs.trace.countP q := by
  induction fuel generalizing s page with
  | zero => rfl
  | succ f ih =>
    unfold commentLoop
    dsimp only
    split
    · simp [St.fatalf, St.printf, St.withFS, FS.callEvent, countP_concat, hqC]
    · rcases h : writeComments env ((s.printf (.listCommentsCall num page)).withFS
          (((s.printf (.listCommentsCall num page)).fs).callEvent
            (.listComments num page))) issue (env.commentPages num page).1
        with ⟨s1, r⟩
      have h1 : s1.fs.trace.countP q = s.fs.trace.countP q := by
        have := writeComments_countP env ((s.printf (.listCommentsCall num page)).withFS
            (((s.printf (.listCommentsCall num page)).fs).callEvent
              (.listComments num page))) issue (env.commentPages num page).1 q hqW
        rw [h] at this
        simpa [St.withFS, St.printf, FS.callEvent, countP_concat, hqC] using this
      cases r with
      | panicked => simpa [h] using h1
      | res r0 =>
        cases r0 with
        | some e => simpa [h, St.fatalf, St.printf] using h1
        | none =>
          simp only [h]
          split
          · simpa using h1
          · rw [ih s1 (env.commentPages num page).2]; exact h1

end M1

namespace M1

theorem commentLoop_countP_success (env : Env) (num : Int) (issue : Issue)
    (fuel : Nat) (s : St) (page : Nat) (q : Event → Bool)
    (hqW : ∀ pth ct pm, q (Event.writeFile pth ct pm) = false)
    (hqCC : ∀ p, q (Event.listComments num p) = true)
    (hres : (commentLoop env num issue fuel s page).2 = URes.success) :
    ((commentLoop env num issue fuel s page).1).fs.trace.countP q
      = s.fs.trace.countP q
        + pageCount (fun p => (env.commentPages num p).2) fuel page := by
  induction fuel generalizing s page with
  | zero => exact absurd hres (by simp [commentLoop])
  | succ f ih =>
    rw [commentLoop] at hres ⊢
    dsimp only at hres ⊢
    rw [pageCount]
    split at hres
    · exact absurd hres (by simp)
    · rename_i herr
      rw [if_neg herr]
      split at hres
      · exact absurd hres (by simp)
      · exact absurd hres (by simp)
      · rename_i s1 heq
        have h1 : s1.fs.trace.countP q = s.fs.trace.countP q + 1 := by
          have := writeComments_countP env ((s.printf (.listCommentsCall num page)).withFS
              (((s.printf (.listCommentsCall num page)).fs).callEvent
                (.listComments num page))) issue (env.commentPages num page).1 q hqW
          rw [heq] at this
          simpa [St.withFS, St.printf, FS.callEvent, countP_concat, hqCC] using this
        split at hres
        · rename_i hz
          rw [if_pos hz, if_pos hz]
          simpa using h1
        · rename_i hz
          rw [if_neg hz, if_neg hz]
          rw [ih s1 (env.commentPages num page).2 hres, h1]
          omega

end M1

namespace M1

theorem writeComments_countP_eq (env : Env) (issue : Issue)
    (cs : List IssueComment) (q : Event → Bool) {s s1 : St} {r : CRes}
    (hqW : ∀ pth ct pm, q (Event.writeFile pth ct pm) = false)
    (h : writeComments env s issue cs = (s1, r)) :
    s1.fs.trace.countP q = s.fs.trace.countP q := by
  have := writeComments_countP env s issue cs q hqW
  rw [h] at this; exact this

theorem commentLoop_countP_eq (env : Env) (num : Int) (issue : Issue)
    (fuel page : Nat) (q : Event → Bool) {s s1 : St} {r : URes}
    (hqW : ∀ pth ct pm, q (Event.writeFile pth ct pm) = false)
    (hqC : ∀ n p, q (Event.listComments n p) = false)
    (h : commentLoop env num issue fuel s page = (s1, r)) :
    s1.fs.trace.countP q = s.fs.trace.countP q := by
  have := commentLoop_countP env num issue fuel s page q hqW hqC
  rw [h] at this; exact this

theorem issueUnit_countP (env : Env) (fuel : Nat) (s : St) (issue : Issue)
    (num : Int) (racy : Issue) (q : Event → Bool)
    (hqW : ∀ pth ct pm, q (Event.writeFile pth ct pm) = false)
    (hqM : ∀ d pm, q (Event.mkdirAll d pm) = false)
    (hqC : ∀ n p, q (Event.listComments n p) = false) :
    ((issueUnit env fuel s issue num racy).1).fs.trace.countP q
      = s.fs.trace.countP q := by
  unfold issueUnit
  dsimp only
  split
  · split
    · cases hc : racy.comments with
      | none =>
        simp [St.printf, St.withFS, FS.mkdirAll, FS.writeFile, countP_concat, hqW, hqM]
      | some cnt =>
        dsimp only
        split
        · simp [St.printf, St.withFS, FS.mkdirAll, FS.writeFile, countP_concat, hqW, hqM]
        · split
          · split
            · rename_i s1 heq
              have h1 := commentLoop_countP_eq env num issue fuel 0 q hqW hqC heq
              simp only [St.printf, St.withFS, FS.mkdirAll, FS.writeFile,
                countP_concat, hqW, hqM] at h1 ⊢
              simpa using h1
            · rename_i s1 r heq
              have h1 := commentLoop_countP_eq env num issue fuel 0 q hqW hqC heq
              simp only [St.printf, St.withFS, FS.mkdirAll, FS.writeFile,
                countP_concat, hqW, hqM] at h1 ⊢
              simpa using h1
          · simp [St.printf, St.withFS, FS.mkdirAll, FS.writeFile, countP_concat, hqW, hqM]
    · simp [St.printf, St.withFS, FS.mkdirAll, countP_concat, hqM]
  · simp [St.printf]

theorem issueUnit_countP_eq (env : Env) (fuel : Nat) (issue : Issue)
    (num : Int) (racy : Issue) (q : Event → Bool) {s s1 : St} {r : URes}
    (hqW : ∀ pth ct pm, q (Event.writeFile pth ct pm) = false)
    (hqM : ∀ d pm, q (Event.mkdirAll d pm) = false)
    (hqC : ∀ n p, q (Event.listComments n p) = false)
    (h : issueUnit env fuel s issue num racy = (s1, r)) :
    s1.fs.trace.countP q = s.fs.trace.countP q := by
  have := issueUnit_countP env fuel s issue num racy q hqW hqM hqC
  rw [h] at this; exact this

theorem issuesJoin_countP (env : Env) (fuel : Nat) (s : St)
    (prs : List (Issue × Issue)) (q : Event → Bool)
    (hqW : ∀ pth ct pm, q (Event.writeFile pth ct pm) = false)
    (hqM : ∀ d pm, q (Event.mkdirAll d pm) = false)
    (hqC : ∀ n p, q (Event.listComments n p) = false) :
    ((issuesJoin env fuel s prs).1).fs.trace.countP q = s.fs.trace.countP q := by
  induction prs generalizing s with
  | nil => rfl
  | cons pr rest ih =>
    rcases pr with ⟨issue, racy⟩
    unfold issuesJoin
    cases issue.number with
    | none => rfl
    | some num =>
      dsimp only
      split
      · rename_i s1 heq
        rw [ih s1]
        exact issueUnit_countP_eq env fuel issue num racy q hqW hqM hqC heq
      · rename_i s1 e heq
        have h1 := issueUnit_countP_eq env fuel issue num racy q hqW hqM hqC heq
        split
        · rename_i heq2
          have h2 := ih s1
          rw [heq2] at h2
          simpa using h2.trans h1
        · rename_i heq2
          have h2 := ih s1
          rw [heq2] at h2
          simpa using h2.trans h1
      · rename_i s1 heq
        simpa using issueUnit_countP_eq env fuel issue num racy q hqW hqM hqC heq
      · rename_i s1 heq
        simpa using issueUnit_countP_eq env fuel issue num racy q hqW hqM hqC heq
      · rename_i s1 heq
        simpa using issueUnit_countP_eq env fuel issue num racy q hqW hqM hqC heq

theorem writeIssues_countP_eq (env : Env) (fuel : Nat)
    (issues reads : List Issue) (q : Event → Bool) {s s1 : St} {r : BatchRes}
    (hqW : ∀ pth ct pm, q (Event.writeFile pth ct pm) = false)
    (hqM : ∀ d pm, q (Event.mkdirAll d pm) = false)
    (hqC : ∀ n p, q (Event.listComments n p) = false)
    (h : writeIssues env fuel s issues reads = (s1, r)) :
    s1.fs.trace.countP q = s.fs.trace.countP q := by
  unfold writeIssues at h
  have := issuesJoin_countP env fuel (s.printf (.processingIssues issues.length))
      (issues.zip reads) q hqW hqM hqC
  rw [h] at this; exact this

end M1

namespace M1

theorem mainLoop_countP (env : Env) (fuel : Nat) (reads : Nat → List Issue)
    (f : Nat) (s : St) (page : Nat) (q : Event → Bool)
    (hqW : ∀ pth ct pm, q (Event.writeFile pth ct pm) = false)
    (hqM : ∀ d pm, q (Event.mkdirAll d pm) = false)
    (hqC : ∀ n p, q (Event.listComments n p) = false)
    (hqI : ∀ p, q (Event.listIssues p) = true)
    (hres : (mainLoop env fuel reads f s page).2 = RunRes.ok) :
    ((mainLoop env fuel reads f s page).1).fs.trace.countP q
      = s.fs.trace.countP q + pageCount (fun p => (env.issuePages p).2) f page := by
  induction f generalizing s page with
  | zero => exact absurd hres (by simp [mainLoop])
  | succ f ih =>
    rw [mainLoop] at hres ⊢
    dsimp only at hres ⊢
    rw [pageCount]
    split at hres
    · exact absurd hres (by simp)
    · rename_i herr
      rw [if_neg herr]
      split at hres
      · rename_i s1 heq
        have h1 : s1.fs.trace.countP q = s.fs.trace.countP q + 1 := by
          have := writeIssues_countP_eq env fuel (env.issuePages page).1 (reads page)
            q hqW hqM hqC heq
          simpa [St.withFS, St.printf, FS.callEvent, countP_concat, hqI] using this
        split at hres
        · rename_i hz
          rw [if_pos hz, if_pos hz]
          simpa [St.printf] using h1
        · rename_i hz
          rw [if_neg hz, if_neg hz]
          rw [ih s1 (env.issuePages page).2 hres, h1]
          omega
      · exact absurd hres (by simp)
      · exact absurd hres (by simp)
      · exact absurd hres (by simp)
      · exact absurd hres (by simp)

end M1

theorem pageCount_simNext_aux (K : Nat) :
    ∀ fuel j, 1 ≤ j → j ≤ K → K - j < fuel →
      pageCount (simNext K) fuel j = K - j + 1 := by
  intro fuel
  induction fuel with
  | zero => intro j _ _ h3; omega
  | succ f ih =>
    intro j h1 h2 h3
    rw [pageCount]
    by_cases hj : j < K
    · have hs : simNext K j = j + 1 := by
        unfold simNext
        rw [Nat.max_eq_left h1, if_pos hj]
      rw [hs, if_neg (by omega), ih (j+1) (by omega) (by omega) (by omega)]
      omega
    · have hs : simNext K j = 0 := by
        unfold simNext
        rw [Nat.max_eq_left h1, if_neg (by omega)]
      rw [hs, if_pos rfl]
      omega

theorem pageCount_simNext (K fuel : Nat) (h1 : 1 ≤ K) (hf : K ≤ fuel) :
    pageCount (simNext K) fuel 0 = K := by
  cases fuel with
  | zero => omega
  | succ f =>
    rw [pageCount]
    by_cases hK : 1 < K
    · have hs : simNext K 0 = 2 := by
        unfold simNext
        rw [show max 0 1 = 1 from rfl, if_pos hK]
    
      rw [hs, if_neg (by omega),
        pageCount_simNext_aux K f 2 (by omega) (by omega) (by omega)]
      omega
    · have hs : simNext K 0 = 0 := by
        unfold simNext
        rw [show max 0 1 = 1 from rfl, if_neg (by omega)]
      rw [hs, if_pos rfl]
      omega

/-- C1 (confirmed): pagination terminates without an extra fetch.  Against
a simulated issue source with pages `1..K` (requesting page 0 yields the
first page, the response of page `K` carries next page 0), a successful run
performs exactly `K` `ListByRepo` fetches — the trace holds `K`
`listIssues` events, not `K + 1`; and for any issue whose comment listing
is simulated the same way with `KC` pages, a successful pass of the inner
comment loop adds exactly `KC` `listComments` events for that issue. -/
theorem c1_pagination_fetch_count
    (env : Env) (fuel K : Nat) (reads : Nat → List Issue)
    (hK : 1 ≤ K) (hfuel : K ≤ fuel)
    (hsrc : ∀ p, (env.issuePages p).2 = simNext K p)
    (hok : (M1.mainRun env fuel reads M1.St.init).2 = RunRes.ok) :
    ((M1.mainRun env fuel reads M1.St.init).1).fs.trace.countP isListIssues = K
    ∧ ∀ (num : Int) (issue : Issue) (s : M1.St) (fuelC KC : Nat),
        1 ≤ KC → KC ≤ fuelC →
        (∀ p, (env.commentPages num p).2 = simNext KC p) →
        (M1.commentLoop env num issue fuelC s 0).2 = URes.success →
        ((M1.commentLoop env num issue fuelC s 0).1).fs.trace.countP
            (isListCommentsFor num)
          = s.fs.trace.countP (isListCommentsFor num) + KC := by
  constructor
  · unfold M1.mainRun at hok ⊢
    split at hok
    · rename_i hopen
      rw [if_pos hopen]
      have h := M1.mainLoop_countP env fuel reads fuel M1.St.init 0 isListIssues
        (fun _ _ _ => rfl) (fun _ _ => rfl) (fun _ _ => rfl) (fun _ => rfl) hok
      rw [h]
      have hfn : (fun p => (env.issuePages p).2) = simNext K := funext hsrc
      rw [hfn, pageCount_simNext K fuel hK hfuel]
      simp [M1.St.init, FS.init]
    · exact absurd hok (by simp)
  · intro num issue s fuelC KC hKC hfc hcsrc hsucc
    have h := M1.commentLoop_countP_success env num issue fuelC s 0
      (isListCommentsFor num) (fun _ _ _ => rfl)
      (fun p => by simp [isListCommentsFor]) hsucc
    rw [h]
    have hfn : (fun p => (env.commentPages num p).2) = simNext KC := funext hcsrc
    rw [hfn, pageCount_simNext KC fuelC hKC hfc]

/-- Witness for `c1_pagination_fetch_count`: the simulated source `envC1`
has a 2-page issue listing and 3-page comment listings; a full run makes
exactly 2 issue-page fetches, and the comment loop for issue 5 makes
exactly 3 comment-page fetches. -/
theorem c1_pagination_fetch_count_witness :
    ((M1.mainRun envC1 5 (fun _ => []) M1.St.init).1).fs.trace.countP isListIssues = 2
    ∧ ((M1.commentLoop envC1 5 iFive 7 M1.St.init 0).1).fs.trace.countP
        (isListCommentsFor 5)
      = M1.St.init.fs.trace.countP (isListCommentsFor 5) + 3 := by
  have h := c1_pagination_fetch_count envC1 5 2 (fun _ => []) (by decide) (by decide)
    (fun p => rfl) (by decide)
  exact ⟨h.1, h.2 5 iFive M1.St.init 7 3 (by decide) (by decide) (fun p => rfl) (by decide)⟩

/-! ## Batch fan-out/join semantics (C2) -/

namespace M1

theorem commentUnit_res_irrel (env : Env) (num : Int) (c : IssueComment)
    (s t : St) : (commentUnit env num s c).2 = (commentUnit env num t c).2 := by
  unfold commentUnit
  cases c.id with
  | none => rfl
  | some cid =>
    dsimp only
    split <;> rfl

theorem commentsJoin_res_irrel (env : Env) (num : Int) (cs : List IssueComment)
    (s t : St) : (commentsJoin env num s cs).2 = (commentsJoin env num t cs).2 := by
  induction cs generalizing s t with
  | nil => rfl
  | cons c rest ih =>
    unfold commentsJoin
    rcases hu : commentUnit env num s c with ⟨s1, r⟩
    rcases hv : commentUnit env num t c with ⟨t1, r2⟩
    have hr : r = r2 := by
      have := commentUnit_res_irrel env num c s t
      rw [hu, hv] at this; exact this
    subst hr
    cases r with
    | panicked => rfl
    | res r0 =>
      dsimp only
      rcases hj : commentsJoin env num s1 rest with ⟨s2, rr⟩
      rcases hk : commentsJoin env num t1 rest with ⟨t2, rr2⟩
      have hrr : rr = rr2 := by
        have := ih s1 t1
        rw [hj, hk] at this; exact this
      subst hrr
      cases rr <;> rfl

theorem writeComments_res_irrel (env : Env) (issue : Issue)
    (cs : List IssueComment) (s t : St) :
    (writeComments env s issue cs).2 = (writeComments env t issue cs).2 := by
  unfold writeComments
  cases issue.number with
  | none => rfl
  | some num => exact commentsJoin_res_irrel env num cs _ _

theorem commentLoop_res_irrel (env : Env) (num : Int) (issue : Issue)
    (fuel : Nat) (page : Nat) (s t : St) :
    (commentLoop env num issue fuel s page).2
      = (commentLoop env num issue fuel t page).2 := by
  induction fuel generalizing s t page with
  | zero => rfl
  | succ f ih =>
    rw [commentLoop, commentLoop]
    dsimp only
    split
    · rfl
    · rcases hu : writeComments env ((s.printf (.listCommentsCall num page)).withFS
          (((s.printf (.listCommentsCall num page)).fs).callEvent
            (.listComments num page))) issue (env.commentPages num page).1
        with ⟨s1, r⟩
      rcases hv : writeComments env ((t.printf (.listCommentsCall num page)).withFS
          (((t.printf (.listCommentsCall num page)).fs).callEvent
            (.listComments num page))) issue (env.commentPages num page).1
        with ⟨t1, r2⟩
      have hr : r = r2 := by
        have := writeComments_res_irrel env issue (env.commentPages num page).1
          ((s.printf (.listCommentsCall num page)).withFS
            (((s.printf (.listCommentsCall num page)).fs).callEvent
              (.listComments num page)))
          ((t.printf (.listCommentsCall num page)).withFS
            (((t.printf (.listCommentsCall num page)).fs).callEvent
              (.listComments num page)))
        rw [hu, hv] at this; exact this
      subst hr
      cases r with
      | panicked => rfl
      | res r0 =>
        cases r0 with
        | some e => rfl
        | none =>
          dsimp only
          split
          · rfl
          · apply ih

theorem commentLoop_res_irrel_eq (env : Env) (num : Int) (issue : Issue)
    (fuel page : Nat) {s t s1 t1 : St} {r r2 : URes}
    (hu : commentLoop env num issue fuel s page = (s1, r))
    (hv : commentLoop env num issue fuel t page = (t1, r2)) : r = r2 := by
  have := commentLoop_res_irrel env num issue fuel page s t
  rw [hu, hv] at this; exact this

theorem issueUnit_res_irrel (env : Env) (fuel : Nat) (issue : Issue)
    (num : Int) (racy : Issue) (s t : St) :
    (issueUnit env fuel s issue num racy).2
      = (issueUnit env fuel t issue num racy).2 := by
  unfold issueUnit
  dsimp only
  split
  · split
    · cases racy.comments with
      | none => rfl
      | some cnt =>
        dsimp only
        split
        · rfl
        · split
          · split
            · rename_i s1 hu
              split
              · rfl
              · rename_i t1 r2 hne hv
                have hr := commentLoop_res_irrel_eq env num issue fuel 0 hu hv
                exact absurd hr.symm hne
            · rename_i s1 r hne hu
              split
              · rename_i t1 hv
                have hr := commentLoop_res_irrel_eq env num issue fuel 0 hu hv
                exact absurd hr hne
              · rename_i t1 r2 hne2 hv
                have hr := commentLoop_res_irrel_eq env num issue fuel 0 hu hv
                simpa using hr
          · rfl
    · rfl
  · rfl

end M1

theorem firstErr_eq_none_iff (l : List URes) (hn : ∀ r ∈ l, UNormal r) :
    firstErr l = none ↔ ∀ r ∈ l, r = URes.success := by
  induction l with
  | nil => simp [firstErr]
  | cons r rest ih =>
    rcases hn r (by simp) with hs | ⟨e, he⟩
    · subst hs
      simp only [firstErr, List.mem_cons]
      rw [ih (fun x hx => hn x (by simp [hx]))]
      constructor
      · rintro h x (rfl | hx)
        · rfl
        · exact h x hx
      · intro h x hx
        exact h x (Or.inr hx)
    · subst he
      constructor
      · intro h
        simp [firstErr] at h
      · intro h
        exact absurd (h (URes.failure e) (by simp)) (by simp)

theorem firstCErr_eq_none_iff (l : List CRes) (hn : ∀ r ∈ l, r ≠ CRes.panicked) :
    firstCErr l = none ↔ ∀ r ∈ l, r = CRes.res none := by
  induction l with
  | nil => simp [firstCErr]
  | cons r rest ih =>
    cases r with
    | panicked => exact absurd rfl (hn CRes.panicked (by simp))
    | res o =>
      cases o with
      | some e =>
        constructor
        · intro h
          simp [firstCErr] at h
        · intro h
          exact absurd (h (CRes.res (some e)) (by simp)) (by simp)
      | none =>
        simp only [firstCErr, List.mem_cons]
        rw [ih (fun x hx => hn x (by simp [hx]))]
        constructor
        · rintro h x (rfl | hx)
          · rfl
          · exact h x hx
        · intro h x hx
          exact h x (Or.inr hx)

namespace M1

theorem issuesJoin_firstErr (env : Env) (fuel : Nat) (s : St)
    (prs : List (Issue × Issue))
    (hn : ∀ pr ∈ prs, UNormal (unitResOf env fuel pr)) :
    (issuesJoin env fuel s prs).2
      = BatchRes.res (firstErr (prs.map (unitResOf env fuel))) := by
  induction prs generalizing s with
  | nil => rfl
  | cons pr rest ih =>
    rcases pr with ⟨issue, racy⟩
    have hh := hn (issue, racy) (by simp)
    unfold issuesJoin
    cases hnum : issue.number with
    | none =>
      exfalso
      unfold unitResOf at hh
      simp only [hnum] at hh
      rcases hh with h | ⟨e, h⟩ <;> simp at h
    | some num =>
      dsimp only
      rcases hu : issueUnit env fuel s issue num racy with ⟨s1, r⟩
      have hr : unitResOf env fuel (issue, racy) = r := by
        unfold unitResOf
        simp only [hnum]
        have := issueUnit_res_irrel env fuel issue num racy St.init s
        rw [hu] at this
        simpa using this
      rcases hh with hs | ⟨e, he⟩
      · have hrs : r = URes.success := by rw [← hr, hs]
        subst hrs
        simp only [List.map_cons, hs, firstErr]
        exact ih s1 (fun x hx => hn x (by simp [hx]))
      · have hrf : r = URes.failure e := by rw [← hr, he]
        subst hrf
        simp only [List.map_cons, he, firstErr]
        rcases hj : issuesJoin env fuel s1 rest with ⟨s2, r2⟩
        have hj2 := ih s1 (fun x hx => hn x (by simp [hx]))
        rw [hj] at hj2
        dsimp only at hj2
        subst hj2
        rfl

theorem commentsJoin_firstCErr (env : Env) (num : Int) (s : St)
    (cs : List IssueComment)
    (hn : ∀ c ∈ cs, cUnitResOf env num c ≠ CRes.panicked) :
    (commentsJoin env num s cs).2
      = CRes.res (firstCErr (cs.map (cUnitResOf env num))) := by
  induction cs generalizing s with
  | nil => rfl
  | cons c rest ih =>
    unfold commentsJoin
    rcases hu : commentUnit env num s c with ⟨s1, r⟩
    have hr : cUnitResOf env num c = r := by
      unfold cUnitResOf
      have := commentUnit_res_irrel env num c St.init s
      rw [hu] at this
      simpa using this
    cases r with
    | panicked => exact absurd hr (hn c (by simp))
    | res r0 =>
      dsimp only
      rcases hj : commentsJoin env num s1 rest with ⟨s2, r2⟩
      have hj2 := ih s1 (fun x hx => hn x (by simp [hx]))
      rw [hj] at hj2
      dsimp only at hj2
      subst hj2
      simp only [List.map_cons, hr]
      cases r0 with
      | some e => simp [firstCErr]
      | none => simp [firstCErr]

theorem writeIssues_firstErr (env : Env) (fuel : Nat) (s : St)
    (issues reads : List Issue)
    (hn : ∀ pr ∈ issues.zip reads, UNormal (unitResOf env fuel pr)) :
    (writeIssues env fuel s issues reads).2
      = BatchRes.res (firstErr ((issues.zip reads).map (unitResOf env fuel))) := by
  unfold writeIssues
  exact issuesJoin_firstErr env fuel _ _ hn

theorem writeComments_firstCErr (env : Env) (s : St) (issue : Issue)
    (num : Int) (cs : List IssueComment) (hnum : issue.number = some num)
    (hn : ∀ c ∈ cs, cUnitResOf env num c ≠ CRes.panicked) :
    (writeComments env s issue cs).2
      = CRes.res (firstCErr (cs.map (cUnitResOf env num))) := by
  unfold writeComments
  rw [hnum]
  exact commentsJoin_firstCErr env num _ cs hn

end M1

/-- C2 (confirmed): a batch spawns one unit per item (one outcome per
zipped pair), runs them all, and `g.Wait` reports the first error in spawn
order: when every unit either returns nil or returns an error (no fatal
log call, panic or divergence inside a unit), `writeIssues` returns exactly
the first error among the unit outcomes, and returns nil if and only if
every unit succeeded; likewise `writeComments` for a batch of comments. -/
theorem c2_batch_first_error
    (env : Env) (fuel : Nat) (s : M1.St) (issues reads : List Issue)
    (hlen : reads.length = issues.length)
    (hn : ∀ pr ∈ issues.zip reads, UNormal (M1.unitResOf env fuel pr)) :
    ((issues.zip reads).map (M1.unitResOf env fuel)).length = issues.length
    ∧ (M1.writeIssues env fuel s issues reads).2
        = BatchRes.res (firstErr ((issues.zip reads).map (M1.unitResOf env fuel)))
    ∧ ((M1.writeIssues env fuel s issues reads).2 = BatchRes.res none
        ↔ ∀ r ∈ (issues.zip reads).map (M1.unitResOf env fuel), r = URes.success)
    ∧ ∀ (t : M1.St) (issue : Issue) (num : Int) (cs : List IssueComment),
        issue.number = some num →
        (∀ c ∈ cs, M1.cUnitResOf env num c ≠ CRes.panicked) →
        (cs.map (M1.cUnitResOf env num)).length = cs.length
        ∧ (M1.writeComments env t issue cs).2
            = CRes.res (firstCErr (cs.map (M1.cUnitResOf env num)))
        ∧ ((M1.writeComments env t issue cs).2 = CRes.res none
            ↔ ∀ c ∈ cs, M1.cUnitResOf env num c = CRes.res none) := by
  refine ⟨?_, M1.writeIssues_firstErr env fuel s issues reads hn, ?_, ?_⟩
  · simp [List.length_zip, hlen]
  · rw [M1.writeIssues_firstErr env fuel s issues reads hn]
    simp only [BatchRes.res.injEq]
    exact firstErr_eq_none_iff _ (fun r hr => by
      rcases List.mem_map.1 hr with ⟨pr, hpr, rfl⟩
      exact hn pr hpr)
  · intro t issue num cs hnum hcn
    refine ⟨by simp, M1.writeComments_firstCErr env t issue num cs hnum hcn, ?_⟩
    rw [M1.writeComments_firstCErr env t issue num cs hnum hcn]
    simp only [CRes.res.injEq]
    rw [firstCErr_eq_none_iff _ (fun r hr => by
      rcases List.mem_map.1 hr with ⟨c, hc, rfl⟩
      exact hcn c hc)]
    constructor
    · intro h c hc
      exact h (M1.cUnitResOf env num c) (List.mem_map.2 ⟨c, hc, rfl⟩)
    · intro h r hr
      rcases List.mem_map.1 hr with ⟨c, hc, rfl⟩
      exact h c hc

/-- Witness for `c2_batch_first_error`: in `envC2` (where the issue file of
issue 2 cannot be written), a batch of two issues returns exactly the first
unit error, and the nil-iff-all-succeed equivalence holds. -/
theorem c2_batch_first_error_witness :
    (M1.writeIssues envC2 3 M1.St.init [iZero, iTwoZero] [iZero, iTwoZero]).2
      = BatchRes.res (firstErr
          (([iZero, iTwoZero].zip [iZero, iTwoZero]).map (M1.unitResOf envC2 3)))
    ∧ ((M1.writeIssues envC2 3 M1.St.init [iZero, iTwoZero] [iZero, iTwoZero]).2
          = BatchRes.res none
        ↔ ∀ r ∈ ([iZero, iTwoZero].zip [iZero, iTwoZero]).map (M1.unitResOf envC2 3),
            r = URes.success) := by
  have h := c2_batch_first_error envC2 3 M1.St.init [iZero, iTwoZero]
    [iZero, iTwoZero] rfl (fun pr hpr => by
      simp only [List.zip_cons_cons, List.zip_nil_right, List.mem_cons,
        List.not_mem_nil, or_false] at hpr
      rcases hpr with h1 | h2
      · subst h1
        exact Or.inl (by decide)
      · subst h2
        exact Or.inr ⟨Err.writeFailed (MPath.issueFile 2), by decide⟩)
  exact ⟨h.2.1, h.2.2.1⟩

/-! ## Nil-pointer dereferences (C10) -/

namespace M1

theorem commentUnit_panicked_iff (env : Env) (num : Int) (s : St)
    (c : IssueComment) :
    (commentUnit env num s c).2 = CRes.panicked ↔ c.id = none := by
  unfold commentUnit
  cases c.id with
  | none => simp
  | some cid =>
    dsimp only
    split <;> simp

theorem commentsJoin_panicked_iff (env : Env) (num : Int) (s : St)
    (cs : List IssueComment) :
    (commentsJoin env num s cs).2 = CRes.panicked ↔ ∃ c ∈ cs, c.id = none := by
  induction cs generalizing s with
  | nil => simp [commentsJoin]
  | cons c rest ih =>
    unfold commentsJoin
    rcases hu : commentUnit env num s c with ⟨s1, r⟩
    have hiff : r = CRes.panicked ↔ c.id = none := by
      have := commentUnit_panicked_iff env num s c
      rw [hu] at this
      simpa using this
    cases r with
    | panicked =>
      simp only [List.mem_cons]
      constructor
      · intro _
        exact ⟨c, Or.inl rfl, hiff.1 rfl⟩
      · intro _
        trivial
    | res r0 =>
      have hcid : ¬ c.id = none := fun h => absurd (hiff.2 h) (by simp)
      dsimp only
      rcases hj : commentsJoin env num s1 rest with ⟨s2, r2⟩
      have hih : r2 = CRes.panicked ↔ ∃ x ∈ rest, x.id = none := by
        have := ih s1
        rw [hj] at this
        simpa using this
      cases r2 with
      | panicked =>
        simp only [List.mem_cons]
        constructor
        · intro _
          rcases hih.1 rfl with ⟨x, hx, hxid⟩
          exact ⟨x, Or.inr hx, hxid⟩
        · intro _
          trivial
      | res r3 =>
        simp only [List.mem_cons]
        constructor
        · intro h
          simp at h
        · rintro ⟨x, hx | hx, hxid⟩
          · exact absurd (hx ▸ hxid) hcid
          · exact absurd (hih.2 ⟨x, hx, hxid⟩) (by simp)

theorem writeComments_panicked_iff (env : Env) (s : St) (issue : Issue)
    (cs : List IssueComment) :
    (writeComments env s issue cs).2 = CRes.panicked
      ↔ (issue.number = none ∨ ∃ c ∈ cs, c.id = none) := by
  unfold writeComments
  cases hn : issue.number with
  | none => simp
  | some num =>
    dsimp only
    rw [commentsJoin_panicked_iff]
    simp

end M1

namespace M1

theorem issuesJoin_panic_of_nilNumber (env : Env) (fuel : Nat) :
    ∀ (prs : List (Issue × Issue)) (s : St) (k : Nat) (i racy : Issue),
      prs[k]? = some (i, racy) → i.number = none →
      (∀ pr ∈ prs.take k, UNormal (unitResOf env fuel pr)) →
      (issuesJoin env fuel s prs).2 = BatchRes.panicked := by
  intro prs
  induction prs with
  | nil => intro s k i racy hk; simp at hk
  | cons pr0 rest ih =>
    intro s k i racy hk hnil hn
    cases k with
    | zero =>
      simp only [List.getElem?_cons_zero, Option.some.injEq] at hk
      subst hk
      unfold issuesJoin
      rw [hnil]
    | succ k =>
      simp only [List.getElem?_cons_succ] at hk
      have h0 := hn pr0 (by simp [List.take_succ_cons])
      rcases pr0 with ⟨i0, racy0⟩
      unfold issuesJoin
      cases hnum : i0.number with
      | none =>
        exfalso
        unfold unitResOf at h0
        simp only [hnum] at h0
        rcases h0 with h | ⟨e, h⟩ <;> simp at h
      | some num =>
        dsimp only
        rcases hu : issueUnit env fuel s i0 num racy0 with ⟨s1, r⟩
        have hr : unitResOf env fuel (i0, racy0) = r := by
          unfold unitResOf
          simp only [hnum]
          have := issueUnit_res_irrel env fuel i0 num racy0 St.init s
          rw [hu] at this
          simpa using this
        have hrest : ∀ pr ∈ rest.take k, UNormal (unitResOf env fuel pr) := by
          intro pr hpr
          exact hn pr (by simp [List.take_succ_cons, hpr])
        rcases h0 with hs | ⟨e, he⟩
        · have : r = URes.success := by rw [← hr, hs]
          subst this
          exact ih s1 k i racy hk hnil hrest
        · have : r = URes.failure e := by rw [← hr, he]
          subst this
          have hrec := ih s1 k i racy hk hnil hrest
          rcases hj : issuesJoin env fuel s1 rest with ⟨s2, r2⟩
          rw [hj] at hrec
          dsimp only at hrec
          subst hrec
          simp [hj]

theorem issueUnit_panic_of_nilComments (env : Env) (fuel : Nat) (s : St)
    (i : Issue) (num : Int) (racy : Issue)
    (hnilc : racy.comments = none)
    (hmk : env.mkdirOk (MDir.issueParentDir num) = true)
    (hwr : env.writeOk (MPath.issueFile num) = true) :
    (issueUnit env fuel s i num racy).2 = URes.panicked := by
  unfold issueUnit
  simp only [hmk, hwr, if_true, hnilc]

theorem issuesJoin_panic_of_nilComments (env : Env) (fuel : Nat) :
    ∀ (prs : List (Issue × Issue)) (s : St) (k : Nat) (i racy : Issue) (num : Int),
      prs[k]? = some (i, racy) → racy.comments = none → i.number = some num →
      env.mkdirOk (MDir.issueParentDir num) = true →
      env.writeOk (MPath.issueFile num) = true →
      (∀ pr ∈ prs.take k, UNormal (unitResOf env fuel pr)) →
      (issuesJoin env fuel s prs).2 = BatchRes.panicked := by
  intro prs
  induction prs with
  | nil => intro s k i racy num hk; simp at hk
  | cons pr0 rest ih =>
    intro s k i racy num hk hnilc hnum hmk hwr hn
    cases k with
    | zero =>
      simp only [List.getElem?_cons_zero, Option.some.injEq] at hk
      subst hk
      unfold issuesJoin
      rw [hnum]
      dsimp only
      rcases hu : issueUnit env fuel s i num racy with ⟨s1, r⟩
      have hp := issueUnit_panic_of_nilComments env fuel s i num racy hnilc hmk hwr
      rw [hu] at hp
      dsimp only at hp
      subst hp
      simp [hu]
    | succ k =>
      simp only [List.getElem?_cons_succ] at hk
      have h0 := hn pr0 (by simp [List.take_succ_cons])
      rcases pr0 with ⟨i0, racy0⟩
      unfold issuesJoin
      cases hnum0 : i0.number with
      | none =>
        exfalso
        unfold unitResOf at h0
        simp only [hnum0] at h0
        rcases h0 with h | ⟨e, h⟩ <;> simp at h
      | some num0 =>
        dsimp only
        rcases hu : issueUnit env fuel s i0 num0 racy0 with ⟨s1, r⟩
        have hr : unitResOf env fuel (i0, racy0) = r := by
          unfold unitResOf
          simp only [hnum0]
          have := issueUnit_res_irrel env fuel i0 num0 racy0 St.init s
          rw [hu] at this
          simpa using this
        have hrest : ∀ pr ∈ rest.take k, UNormal (unitResOf env fuel pr) := by
          intro pr hpr
          exact hn pr (by simp [List.take_succ_cons, hpr])
        rcases h0 with hs | ⟨e, he⟩
        · have : r = URes.success := by rw [← hr, hs]
          subst this
          exact ih s1 k i racy num hk hnilc hnum hmk hwr hrest
        · have : r = URes.failure e := by rw [← hr, he]
          subst this
          have hrec := ih s1 k i racy num hk hnilc hnum hmk hwr hrest
          rcases hj : issuesJoin env fuel s1 rest with ⟨s2, r2⟩
          rw [hj] at hrec
          dsimp only at hrec
          subst hrec
          simp [hj]

end M1

namespace M1

theorem commentLoop_no_panic (env : Env) (num : Int) (issue : Issue)
    (fuel : Nat) (s : St) (page : Nat)
    (hnum : issue.number ≠ none)
    (hids : ∀ p, ∀ c ∈ (env.commentPages num p).1, c.id ≠ none) :
    (commentLoop env num issue fuel s page).2 ≠ URes.panicked := by
  induction fuel generalizing s page with
  | zero => simp [commentLoop]
  | succ f ih =>
    rw [commentLoop]
    dsimp only
    split
    · simp
    · split
      · rename_i s1 heq
        exfalso
        have := writeComments_panicked_iff env
          ((s.printf (.listCommentsCall num page)).withFS
            (((s.printf (.listCommentsCall num page)).fs).callEvent
              (.listComments num page))) issue (env.commentPages num page).1
        rw [heq] at this
        rcases this.1 rfl with h | ⟨c, hc, hcid⟩
        · exact hnum h
        · exact hids page c hc hcid
      · simp
      · rename_i s1 heq
        split
        · simp
        · exact ih s1 (env.commentPages num page).2

theorem commentLoop_no_panic_eq (env : Env) (num : Int) (issue : Issue)
    (fuel page : Nat) {s s1 : St} {r : URes}
    (hnum : issue.number ≠ none)
    (hids : ∀ p, ∀ c ∈ (env.commentPages num p).1, c.id ≠ none)
    (heq : commentLoop env num issue fuel s page = (s1, r)) :
    r ≠ URes.panicked := by
  have := commentLoop_no_panic env num issue fuel s page hnum hids
  rw [heq] at this
  simpa using this

theorem issueUnit_no_panic (env : Env) (fuel : Nat) (s : St) (issue : Issue)
    (num : Int) (racy : Issue)
    (hnum : issue.number ≠ none)
    (hcom : racy.comments ≠ none)
    (hids : ∀ p, ∀ c ∈ (env.commentPages num p).1, c.id ≠ none) :
    (issueUnit env fuel s issue num racy).2 ≠ URes.panicked := by
  cases hc : racy.comments with
  | none => exact absurd hc hcom
  | some cnt =>
    unfold issueUnit
    simp only [hc]
    split
    · split
      · split
        · simp
        · split
          · split
            · simp
            · rename_i s1 r hne heq
              simpa using commentLoop_no_panic_eq env num issue fuel 0 hnum hids heq
          · simp
      · simp
    · simp

end M1

namespace M1

theorem issuesJoin_no_panic (env : Env) (fuel : Nat) :
    ∀ (prs : List (Issue × Issue)) (s : St),
      (∀ pr ∈ prs, pr.1.number ≠ none) →
      (∀ pr ∈ prs, pr.2.comments ≠ none) →
      (∀ num p, ∀ c ∈ (env.commentPages num p).1, c.id ≠ none) →
      (issuesJoin env fuel s prs).2 ≠ BatchRes.panicked := by
  intro prs
  induction prs with
  | nil => intro s _ _ _; simp [issuesJoin]
  | cons pr0 rest ih =>
    intro s hnum hcom hids
    rcases pr0 with ⟨i0, racy0⟩
    unfold issuesJoin
    cases hn0 : i0.number with
    | none => exact absurd hn0 (hnum (i0, racy0) (by simp))
    | some num0 =>
      dsimp only
      rcases hu : issueUnit env fuel s i0 num0 racy0 with ⟨s1, r⟩
      have hup : r ≠ URes.panicked := by
        have := issueUnit_no_panic env fuel s i0 num0 racy0
          (by rw [hn0]; simp) (hcom (i0, racy0) (by simp)) (hids num0)
        rw [hu] at this
        simpa using this
      have hrest := ih s1 (fun pr hpr => hnum pr (by simp [hpr]))
        (fun pr hpr => hcom pr (by simp [hpr])) hids
      cases r with
      | success => exact hrest
      | failure e =>
        rcases hj : issuesJoin env fuel s1 rest with ⟨s2, r2⟩
        rw [hj] at hrest
        dsimp only at hrest
        cases r2 with
        | res o => simp [hj]
        | fatal => simp [hj]
        | panicked => exact absurd rfl hrest
        | diverged => simp [hj]
      | fatal => simp
      | panicked => exact absurd rfl hup
      | diverged => simp

end M1

/-- C10 (amended, proved): nil-pointer dereferences.  (1) `writeComments`
panics exactly when the issue's `Number` is nil or some comment's `ID` is
nil.  (2) In `writeIssues`, a nil `Number` anywhere in the batch panics the
spawning loop (provided the units spawned before it neither died fatally
nor panicked nor diverged first).  (3) A nil `Comments` field panics the
unit whose racy read observes it — in particular, under the aligned
schedule, the unit of that very issue — provided that unit's own directory
and file writes succeed so that execution reaches the dereference.
(4) Non-nil `Number` and `Comments` on every item and non-nil `ID` on every
fetched comment guarantee `writeIssues` never panics, under every
schedule. -/
theorem c10_nil_deref_amended :
    (∀ (env : Env) (s : M1.St) (issue : Issue) (cs : List IssueComment),
      (M1.writeComments env s issue cs).2 = CRes.panicked
        ↔ (issue.number = none ∨ ∃ c ∈ cs, c.id = none))
    ∧ (∀ (env : Env) (fuel : Nat) (s : M1.St) (issues reads : List Issue)
        (k : Nat) (i racy : Issue),
        (issues.zip reads)[k]? = some (i, racy) → i.number = none →
        (∀ pr ∈ (issues.zip reads).take k, UNormal (M1.unitResOf env fuel pr)) →
        (M1.writeIssues env fuel s issues reads).2 = BatchRes.panicked)
    ∧ (∀ (env : Env) (fuel : Nat) (s : M1.St) (issues reads : List Issue)
        (k : Nat) (i racy : Issue) (num : Int),
        (issues.zip reads)[k]? = some (i, racy) → racy.comments = none →
        i.number = some num →
        env.mkdirOk (MDir.issueParentDir num) = true →
        env.writeOk (MPath.issueFile num) = true →
        (∀ pr ∈ (issues.zip reads).take k, UNormal (M1.unitResOf env fuel pr)) →
        (M1.writeIssues env fuel s issues reads).2 = BatchRes.panicked)
    ∧ (∀ (env : Env) (fuel : Nat) (s : M1.St) (issues reads : List Issue),
        (∀ i ∈ issues, i.number ≠ none) →
        (∀ r ∈ reads, r.comments ≠ none) →
        (∀ num p, ∀ c ∈ (env.commentPages num p).1, c.id ≠ none) →
        (M1.writeIssues env fuel s issues reads).2 ≠ BatchRes.panicked) := by
  refine ⟨M1.writeComments_panicked_iff, ?_, ?_, ?_⟩
  · intro env fuel s issues reads k i racy hk hnil hn
    unfold M1.writeIssues
    exact M1.issuesJoin_panic_of_nilNumber env fuel (issues.zip reads) _ k i racy hk hnil hn
  · intro env fuel s issues reads k i racy num hk hnilc hnum hmk hwr hn
    unfold M1.writeIssues
    exact M1.issuesJoin_panic_of_nilComments env fuel (issues.zip reads) _ k i racy num
      hk hnilc hnum hmk hwr hn
  · intro env fuel s issues reads hnum hcom hids
    unfold M1.writeIssues
    refine M1.issuesJoin_no_panic env fuel (issues.zip reads) _ ?_ ?_ hids
    · intro pr hpr
      exact hnum pr.1 (List.of_mem_zip hpr).1
    · intro pr hpr
      exact hcom pr.2 (List.of_mem_zip hpr).2

/-- Witness for `c10_nil_deref_amended`: a nil `Number` makes
`writeComments` panic; a batch whose only item has nil `Comments` makes
`writeIssues` panic under the aligned schedule; and a batch of all-non-nil
items never panics. -/
theorem c10_nil_deref_amended_witness :
    (M1.writeComments envC10 M1.St.init iNilNumber []).2 = CRes.panicked
    ∧ (M1.writeIssues envC10 3 M1.St.init [iNilComments] [iNilComments]).2
        = BatchRes.panicked
    ∧ (M1.writeIssues envC10 3 M1.St.init [iZero] [iZero]).2 ≠ BatchRes.panicked := by
  obtain ⟨h1, h2, h3, h4⟩ := c10_nil_deref_amended
  refine ⟨?_, ?_, ?_⟩
  · exact (h1 envC10 M1.St.init iNilNumber []).2 (Or.inl rfl)
  · exact h3 envC10 3 M1.St.init [iNilComments] [iNilComments] 0 iNilComments
      iNilComments 1 (by decide) rfl rfl (by decide) (by decide)
      (fun pr hpr => absurd hpr (by simp))
  · refine h4 envC10 3 M1.St.init [iZero] [iZero] ?_ ?_ ?_
    · intro i hi
      simp only [List.mem_singleton] at hi
      subst hi
      simp [iZero]
    · intro r hr
      simp only [List.mem_singleton] at hr
      subst hr
      simp [iZero]
    · intro num p c hc
      simp [envC10, benignEnv] at hc

/-! ## The comments directory is created before any comment write (C7) -/

theorem createdDirs_append (t1 t2 : List Event) :
    createdDirs (t1 ++ t2) = createdDirs t1 ++ createdDirs t2 := by
  simp [createdDirs, List.filterMap_append]

theorem commentDirFirst_nil : commentDirFirst [] := by
  intro j num id c perm hj
  simp at hj

theorem commentDirFirst_append_one (tr : List Event) (e : Event)
    (h : commentDirFirst tr)
    (he : ∀ num id c perm, e = Event.writeFile (MPath.commentFile num id) c perm →
      MDir.commentsDir num ∈ createdDirs tr) :
    commentDirFirst (tr ++ [e]) := by
  intro j num id c perm hj
  rcases lt_trichotomy j tr.length with hlt | heq | hgt
  · rw [List.getElem?_append_left hlt] at hj
    rw [List.take_append_of_le_length (le_of_lt hlt)]
    exact h j num id c perm hj
  · subst heq
    rw [List.getElem?_concat_length] at hj
    rw [List.take_append_of_le_length (le_refl _), List.take_length]
    exact he num id c perm (Option.some.inj hj)
  · exfalso
    rw [List.getElem?_eq_none (by simp; omega)] at hj
    simp at hj

namespace M1

theorem commentUnit_trace (env : Env) (num : Int) (s : St) (c : IssueComment)
    (pre : MDir.commentsDir num ∈ createdDirs s.fs.trace)
    (h : commentDirFirst s.fs.trace) :
    commentDirFirst ((commentUnit env num s c).1).fs.trace
    ∧ createdDirs s.fs.trace ⊆ createdDirs ((commentUnit env num s c).1).fs.trace := by
  unfold commentUnit
  cases c.id with
  | none => exact ⟨h, List.Subset.refl _⟩
  | some cid =>
    dsimp only
    split
    · constructor
      · refine commentDirFirst_append_one _ _ h ?_
        intro num' id' c' perm heq
        simp only [Event.writeFile.injEq, MPath.commentFile.injEq] at heq
        rcases heq with ⟨⟨hnum, _⟩, _, _⟩
        subst hnum
        exact pre
      · intro d hd
        simp only [St.withFS, FS.writeFile, createdDirs_append]
        exact List.mem_append_left _ hd
    · exact ⟨h, List.Subset.refl _⟩

theorem commentsJoin_trace (env : Env) (num : Int) (s : St)
    (cs : List IssueComment)
    (pre : MDir.commentsDir num ∈ createdDirs s.fs.trace)
    (h : commentDirFirst s.fs.trace) :
    commentDirFirst ((commentsJoin env num s cs).1).fs.trace
    ∧ createdDirs s.fs.trace ⊆ createdDirs ((commentsJoin env num s cs).1).fs.trace := by
  induction cs generalizing s with
  | nil => exact ⟨h, List.Subset.refl _⟩
  | cons c rest ih =>
    unfold commentsJoin
    rcases hu : commentUnit env num s c with ⟨s1, r⟩
    have h1 := commentUnit_trace env num s c pre h
    rw [hu] at h1
    cases r with
    | panicked => exact h1
    | res r0 =>
      dsimp only
      rcases hj : commentsJoin env num s1 rest with ⟨s2, r2⟩
      have h2 := ih s1 (h1.2 pre) h1.1
      rw [hj] at h2
      cases r2 with
      | panicked => exact ⟨h2.1, h1.2.trans h2.2⟩
      | res r3 => exact ⟨h2.1, h1.2.trans h2.2⟩

theorem writeComments_trace (env : Env) (s : St) (issue : Issue)
    (num : Int) (cs : List IssueComment) (hnum : issue.number = some num)
    (pre : MDir.commentsDir num ∈ createdDirs s.fs.trace)
    (h : commentDirFirst s.fs.trace) :
    commentDirFirst ((writeComments env s issue cs).1).fs.trace
    ∧ createdDirs s.fs.trace ⊆ createdDirs ((writeComments env s issue cs).1).fs.trace := by
  unfold writeComments
  rw [hnum]
  exact commentsJoin_trace env num _ cs pre h

end M1

theorem commentDirFirst_append_nonwrite (tr : List Event) (e : Event)
    (h : commentDirFirst tr)
    (he : ∀ pth c perm, e ≠ Event.writeFile pth c perm) :
    commentDirFirst (tr ++ [e]) := by
  refine commentDirFirst_append_one tr e h ?_
  intro num id c perm heq
  exact absurd heq (he _ _ _)

namespace M1

theorem writeComments_trace_eq (env : Env) (issue : Issue) (num : Int)
    (cs : List IssueComment) {s s1 : St} {r : CRes}
    (hnum : issue.number = some num)
    (pre : MDir.commentsDir num ∈ createdDirs s.fs.trace)
    (h : commentDirFirst s.fs.trace)
    (heq : writeComments env s issue cs = (s1, r)) :
    commentDirFirst s1.fs.trace
    ∧ createdDirs s.fs.trace ⊆ createdDirs s1.fs.trace := by
  have := writeComments_trace env s issue num cs hnum pre h
  rw [heq] at this
  exact this

theorem commentLoop_trace (env : Env) (num : Int) (issue : Issue)
    (fuel : Nat) (s : St) (page : Nat)
    (hnum : issue.number = some num)
    (pre : MDir.commentsDir num ∈ createdDirs s.fs.trace)
    (h : commentDirFirst s.fs.trace) :
    commentDirFirst ((commentLoop env num issue fuel s page).1).fs.trace
    ∧ createdDirs s.fs.trace
        ⊆ createdDirs ((commentLoop env num issue fuel s page).1).fs.trace := by
  induction fuel generalizing s page with
  | zero => exact ⟨h, List.Subset.refl _⟩
  | succ f ih =>
    rw [commentLoop]
    dsimp only
    have hcall : commentDirFirst (s.fs.trace ++ [Event.listComments num page])
        ∧ createdDirs s.fs.trace
            ⊆ createdDirs (s.fs.trace ++ [Event.listComments num page]) := by
      constructor
      · exact commentDirFirst_append_nonwrite _ _ h (fun _ _ _ => by simp)
      · rw [createdDirs_append]
        exact List.subset_append_left _ _
    have hsub : createdDirs s.fs.trace
        ⊆ createdDirs (((s.printf (.listCommentsCall num page)).withFS
            (((s.printf (.listCommentsCall num page)).fs).callEvent
              (.listComments num page))).fs.trace) := by
      simpa [St.withFS, St.printf, FS.callEvent] using hcall.2
    split
    · exact ⟨by simpa [St.fatalf, St.withFS, St.printf, FS.callEvent] using hcall.1,
        by simpa [St.fatalf, St.withFS, St.printf, FS.callEvent] using hcall.2⟩
    · split
      · rename_i s1 heq
        have hstep := writeComments_trace_eq env issue num (env.commentPages num page).1
          hnum ?hpre ?hcdf heq
        · exact ⟨hstep.1, List.Subset.trans hsub hstep.2⟩
        case hpre => exact hsub pre
        case hcdf => simpa [St.withFS, St.printf, FS.callEvent] using hcall.1
      · rename_i s1 heq
        have hstep := writeComments_trace_eq env issue num (env.commentPages num page).1
          hnum ?hpre2 ?hcdf2 heq
        · exact ⟨by simpa [St.fatalf] using hstep.1,
            by simpa [St.fatalf] using List.Subset.trans hsub hstep.2⟩
        case hpre2 => exact hsub pre
        case hcdf2 => simpa [St.withFS, St.printf, FS.callEvent] using hcall.1
      · rename_i s1 heq
        have hstep := writeComments_trace_eq env issue num (env.commentPages num page).1
          hnum ?hpre3 ?hcdf3 heq
        case hpre3 => exact hsub pre
        case hcdf3 => simpa [St.withFS, St.printf, FS.callEvent] using hcall.1
        split
        · exact ⟨hstep.1, List.Subset.trans hsub hstep.2⟩
        · have hrec := ih s1 (env.commentPages num page).2
            (hstep.2 (hsub pre)) hstep.1
          exact ⟨hrec.1, List.Subset.trans (List.Subset.trans hsub hstep.2) hrec.2⟩

end M1

namespace M1

theorem commentLoop_trace_eq (env : Env) (num : Int) (issue : Issue)
    (fuel page : Nat) {s s1 : St} {r : URes}
    (hnum : issue.number = some num)
    (pre : MDir.commentsDir num ∈ createdDirs s.fs.trace)
    (h : commentDirFirst s.fs.trace)
    (heq : commentLoop env num issue fuel s page = (s1, r)) :
    commentDirFirst s1.fs.trace
    ∧ createdDirs s.fs.trace ⊆ createdDirs s1.fs.trace := by
  have := commentLoop_trace env num issue fuel s page hnum pre h
  rw [heq] at this
  exact this

theorem issueUnit_trace (env : Env) (fuel : Nat) (s : St) (issue : Issue)
    (num : Int) (racy : Issue) (hnum : issue.number = some num)
    (h : commentDirFirst s.fs.trace) :
    commentDirFirst ((issueUnit env fuel s issue num racy).1).fs.trace
    ∧ createdDirs s.fs.trace
        ⊆ createdDirs ((issueUnit env fuel s issue num racy).1).fs.trace := by
  have hA : commentDirFirst (s.fs.trace
      ++ [Event.mkdirAll (MDir.issueParentDir num) 493]) :=
    commentDirFirst_append_nonwrite _ _ h (fun _ _ _ => by simp)
  have hB : commentDirFirst ((s.fs.trace
      ++ [Event.mkdirAll (MDir.issueParentDir num) 493])
      ++ [Event.writeFile (MPath.issueFile num) (marshalIssue issue) 420]) := by
    refine commentDirFirst_append_one _ _ hA ?_
    intro num' id' c' perm heq
    simp at heq
  have hC : commentDirFirst (((s.fs.trace
      ++ [Event.mkdirAll (MDir.issueParentDir num) 493])
      ++ [Event.writeFile (MPath.issueFile num) (marshalIssue issue) 420])
      ++ [Event.mkdirAll (MDir.commentsDir num) 493]) :=
    commentDirFirst_append_nonwrite _ _ hB (fun _ _ _ => by simp)
  have hsubC : createdDirs s.fs.trace ⊆ createdDirs (((s.fs.trace
      ++ [Event.mkdirAll (MDir.issueParentDir num) 493])
      ++ [Event.writeFile (MPath.issueFile num) (marshalIssue issue) 420])
      ++ [Event.mkdirAll (MDir.commentsDir num) 493]) := by
    simp only [createdDirs_append]
    intro d hd
    exact List.mem_append_left _ (List.mem_append_left _ (List.mem_append_left _ hd))
  have hpreC : MDir.commentsDir num ∈ createdDirs (((s.fs.trace
      ++ [Event.mkdirAll (MDir.issueParentDir num) 493])
      ++ [Event.writeFile (MPath.issueFile num) (marshalIssue issue) 420])
      ++ [Event.mkdirAll (MDir.commentsDir num) 493]) := by
    simp [createdDirs_append, createdDirs]
  unfold issueUnit
  cases hc : racy.comments with
  | none =>
    simp only [hc]
    split
    · split
      · exact ⟨by simpa [St.withFS, St.printf, FS.mkdirAll, FS.writeFile] using hB,
          by simp only [St.withFS, St.printf, FS.mkdirAll, FS.writeFile]
             simp only [createdDirs_append]
             intro d hd
             exact List.mem_append_left _ (List.mem_append_left _ hd)⟩
      · exact ⟨by simpa [St.withFS, St.printf, FS.mkdirAll] using hA,
          by simp only [St.withFS, St.printf, FS.mkdirAll]
             simp only [createdDirs_append]
             intro d hd
             exact List.mem_append_left _ hd⟩
    · exact ⟨by simpa [St.printf] using h, by simp [St.printf]⟩
  | some cnt =>
    simp only [hc]
    split
    · split
      · split
        · exact ⟨by simpa [St.withFS, St.printf, FS.mkdirAll, FS.writeFile] using hB,
            by simp only [St.withFS, St.printf, FS.mkdirAll, FS.writeFile]
               simp only [createdDirs_append]
               intro d hd
               exact List.mem_append_left _ (List.mem_append_left _ hd)⟩
        · split
          · split
            · rename_i s1 heq
              have hstep := commentLoop_trace_eq env num issue fuel 0 hnum ?hp1 ?hc1 heq
              case hp1 =>
                simpa [St.withFS, St.printf, FS.mkdirAll, FS.writeFile] using hpreC
              case hc1 =>
                simpa [St.withFS, St.printf, FS.mkdirAll, FS.writeFile] using hC
              refine ⟨by simpa [St.printf] using hstep.1, ?_⟩
              intro d hd
              simp only [St.printf]
              refine hstep.2 ?_
              simpa [St.withFS, St.printf, FS.mkdirAll, FS.writeFile] using hsubC hd
            · rename_i s1 r hne heq
              have hstep := commentLoop_trace_eq env num issue fuel 0 hnum ?hp2 ?hc2 heq
              case hp2 =>
                simpa [St.withFS, St.printf, FS.mkdirAll, FS.writeFile] using hpreC
              case hc2 =>
                simpa [St.withFS, St.printf, FS.mkdirAll, FS.writeFile] using hC
              refine ⟨hstep.1, ?_⟩
              intro d hd
              refine hstep.2 ?_
              simpa [St.withFS, St.printf, FS.mkdirAll, FS.writeFile] using hsubC hd
          · exact ⟨by simpa [St.withFS, St.printf, FS.mkdirAll, FS.writeFile] using hB,
              by simp only [St.withFS, St.printf, FS.mkdirAll, FS.writeFile]
                 simp only [createdDirs_append]
                 intro d hd
                 exact List.mem_append_left _ (List.mem_append_left _ hd)⟩
      · exact ⟨by simpa [St.withFS, St.printf, FS.mkdirAll] using hA,
          by simp only [St.withFS, St.printf, FS.mkdirAll]
             simp only [createdDirs_append]
             intro d hd
             exact List.mem_append_left _ hd⟩
    · exact ⟨by simpa [St.printf] using h, by simp [St.printf]⟩

end M1

namespace M1

theorem issueUnit_trace_eq (env : Env) (fuel : Nat) (issue : Issue)
    (num : Int) (racy : Issue) {s s1 : St} {r : URes}
    (hnum : issue.number = some num)
    (h : commentDirFirst s.fs.trace)
    (heq : issueUnit env fuel s issue num racy = (s1, r)) :
    commentDirFirst s1.fs.trace
    ∧ createdDirs s.fs.trace ⊆ createdDirs s1.fs.trace := by
  have := issueUnit_trace env fuel s issue num racy hnum h
  rw [heq] at this
  exact this

theorem issuesJoin_trace (env : Env) (fuel : Nat) :
    ∀ (prs : List (Issue × Issue)) (s : St),
      commentDirFirst s.fs.trace →
      commentDirFirst ((issuesJoin env fuel s prs).1).fs.trace
      ∧ createdDirs s.fs.trace
          ⊆ createdDirs ((issuesJoin env fuel s prs).1).fs.trace := by
  intro prs
  induction prs with
  | nil => exact fun s h => ⟨h, List.Subset.refl _⟩
  | cons pr0 rest ih =>
    intro s h
    rcases pr0 with ⟨issue, racy⟩
    unfold issuesJoin
    cases hnum : issue.number with
    | none => exact ⟨h, List.Subset.refl _⟩
    | some num =>
      dsimp only
      rcases hu : issueUnit env fuel s issue num racy with ⟨s1, r⟩
      have h1 := issueUnit_trace_eq env fuel issue num racy hnum h hu
      cases r with
      | success =>
        have h2 := ih s1 h1.1
        exact ⟨h2.1, List.Subset.trans h1.2 h2.2⟩
      | failure e =>
        rcases hj : issuesJoin env fuel s1 rest with ⟨s2, r2⟩
        have h2 := ih s1 h1.1
        rw [hj] at h2
        simp only [hj]
        cases r2 with
        | res o => exact ⟨h2.1, List.Subset.trans h1.2 h2.2⟩
        | fatal => exact ⟨h2.1, List.Subset.trans h1.2 h2.2⟩
        | panicked => exact ⟨h2.1, List.Subset.trans h1.2 h2.2⟩
        | diverged => exact ⟨h2.1, List.Subset.trans h1.2 h2.2⟩
      | fatal => exact h1
      | panicked => exact h1
      | diverged => exact h1

theorem writeIssues_trace_eq (env : Env) (fuel : Nat)
    (issues reads : List Issue) {s s1 : St} {r : BatchRes}
    (h : commentDirFirst s.fs.trace)
    (heq : writeIssues env fuel s issues reads = (s1, r)) :
    commentDirFirst s1.fs.trace
    ∧ createdDirs s.fs.trace ⊆ createdDirs s1.fs.trace := by
  unfold writeIssues at heq
  have := issuesJoin_trace env fuel (issues.zip reads)
    (s.printf (.processingIssues issues.length)) (by simpa [St.printf] using h)
  rw [heq] at this
  simpa [St.printf] using this

theorem mainLoop_trace (env : Env) (fuel : Nat) (reads : Nat → List Issue) :
    ∀ (f : Nat) (s : St) (page : Nat),
      commentDirFirst s.fs.trace →
      commentDirFirst ((mainLoop env fuel reads f s page).1).fs.trace := by
  intro f
  induction f with
  | zero => exact fun s page h => h
  | succ f ih =>
    intro s page h
    rw [mainLoop]
    dsimp only
    have hcall : commentDirFirst ((((s.printf (.listByRepoCall page)).withFS
          (((s.printf (.listByRepoCall page)).fs).callEvent
            (.listIssues page)))).fs.trace) := by
      simpa [St.withFS, St.printf, FS.callEvent] using
        commentDirFirst_append_nonwrite s.fs.trace (Event.listIssues page) h
          (fun _ _ _ => by simp)
    split
    · simpa [St.fatalf, St.printf] using hcall
    · split
      · rename_i s1 heq
        have h1 := writeIssues_trace_eq env fuel (env.issuePages page).1 (reads page)
          hcall heq
        split
        · simpa [St.printf] using h1.1
        · exact ih s1 (env.issuePages page).2 h1.1
      · rename_i s1 heq
        have h1 := writeIssues_trace_eq env fuel (env.issuePages page).1 (reads page)
          hcall heq
        simpa [St.fatalf, St.printf] using h1.1
      · rename_i s1 heq
        exact (writeIssues_trace_eq env fuel (env.issuePages page).1 (reads page)
          hcall heq).1
      · rename_i s1 heq
        exact (writeIssues_trace_eq env fuel (env.issuePages page).1 (reads page)
          hcall heq).1
      · rename_i s1 heq
        exact (writeIssues_trace_eq env fuel (env.issuePages page).1 (reads page)
          hcall heq).1

end M1

/-- C7 (confirmed): over every run — whatever the environment, the fuel,
the schedule of the racy reads, and however the run ends — every comment
file write in the trace is preceded by a `MkdirAll` of that issue's
comments directory: whenever position `j` of the run's chronological trace
is a write to `commentFile num id`, the directory `commentsDir num` is
among the directories created by the events strictly before `j`. -/
theorem c7_comment_dir_before_write (env : Env) (fuel : Nat)
    (reads : Nat → List Issue) :
    commentDirFirst ((M1.mainRun env fuel reads M1.St.init).1).fs.trace := by
  unfold M1.mainRun
  split
  · exact M1.mainLoop_trace env fuel reads fuel M1.St.init 0 commentDirFirst_nil
  · simpa [M1.St.fatalf, M1.St.printf, M1.St.init, FS.init] using commentDirFirst_nil

/-- Witness for `c7_comment_dir_before_write`: in the concrete run over
`envC7`, position 5 of the trace is the write of comment 10 of issue 1, and
the theorem yields that `commentsDir 1` was created among the first five
events. -/
theorem c7_comment_dir_before_write_witness :
    MDir.commentsDir 1 ∈ createdDirs
      (((M1.mainRun envC7 3 readsC7 M1.St.init).1).fs.trace.take 5) := by
  exact c7_comment_dir_before_write envC7 3 readsC7 5 1 10
    (marshalComment (cm 10)) 420 (by decide)

/-! ## Characterisation of the files a successful run writes (C4) -/

theorem writesLookup_foldl_acc (q : MPath) :
    ∀ (ws : List (MPath × Content)) (acc : Option Content),
      ws.foldl (fun a w => if w.1 = q then some w.2 else a) acc
        = match writesLookup ws q with
          | some c => some c
          | none => acc := by
  intro ws
  induction ws with
  | nil => intro acc; rfl
  | cons w rest ih =>
    intro acc
    unfold writesLookup
    simp only [List.foldl_cons]
    rw [ih ((fun a w => if w.1 = q then some w.2 else a) acc w),
        ih ((fun a w => if w.1 = q then some w.2 else a) none w)]
    cases hr : writesLookup rest q with
    | some c => simp [hr]
    | none => by_cases hw : w.1 = q <;> simp [hr, hw]

theorem writesLookup_cons (w : MPath × Content) (ws : List (MPath × Content))
    (q : MPath) :
    writesLookup (w :: ws) q
      = match writesLookup ws q with
        | some c => some c
        | none => if w.1 = q then some w.2 else none := by
  unfold writesLookup
  simp only [List.foldl_cons]
  exact writesLookup_foldl_acc q ws _

theorem writesLookup_append (w1 w2 : List (MPath × Content)) (q : MPath) :
    writesLookup (w1 ++ w2) q
      = match writesLookup w2 q with
        | some c => some c
        | none => writesLookup w1 q := by
  unfold writesLookup
  rw [List.foldl_append]
  exact writesLookup_foldl_acc q w2 _

theorem writesLookup_none_of_no_key (ws : List (MPath × Content)) (q : MPath)
    (h : ∀ w ∈ ws, w.1 ≠ q) : writesLookup ws q = none := by
  induction ws with
  | nil => rfl
  | cons w rest ih =>
    rw [writesLookup_cons, ih (fun x hx => h x (by simp [hx]))]
    simp [h w (by simp)]

theorem writesLookup_mem (ws : List (MPath × Content)) (q : MPath)
    (c : Content) (h : writesLookup ws q = some c) :
    ∃ w ∈ ws, w.1 = q ∧ w.2 = c := by
  induction ws with
  | nil => simp [writesLookup] at h
  | cons w rest ih =>
    rw [writesLookup_cons] at h
    cases hr : writesLookup rest q with
    | some c2 =>
      rw [hr] at h
      have hc : c2 = c := Option.some.inj h
      subst hc
      rcases ih hr with ⟨x, hx, hxq, hxc⟩
      exact ⟨x, by simp [hx], hxq, hxc⟩
    | none =>
      rw [hr] at h
      by_cases hw : w.1 = q
      · rw [if_pos hw] at h
        exact ⟨w, by simp, hw, Option.some.inj h⟩
      · rw [if_neg hw] at h
        simp at h

theorem filesAfter_nil (f0 : MPath → Option (Content × Nat)) :
    filesAfter [] f0 = f0 := by
  funext q
  rfl

theorem filesAfter_append (w1 w2 : List (MPath × Content))
    (f0 : MPath → Option (Content × Nat)) :
    filesAfter (w1 ++ w2) f0 = filesAfter w2 (filesAfter w1 f0) := by
  funext q
  unfold filesAfter
  rw [writesLookup_append]
  cases writesLookup w2 q with
  | some c => rfl
  | none => cases writesLookup w1 q with
    | some c => rfl
    | none => rfl

theorem commentPageWrites_cons (num : Int) (c : IssueComment)
    (cs : List IssueComment) :
    commentPageWrites num (c :: cs)
      = commentPageWrites num [c] ++ commentPageWrites num cs := by
  unfold commentPageWrites
  cases hid : c.id <;> simp [List.filterMap_cons, hid]

namespace M1

theorem commentUnit_files (env : Env) (num : Int) {s s1 : St}
    (c : IssueComment) (heq : commentUnit env num s c = (s1, CRes.res none)) :
    s1.fs.files = filesAfter (commentPageWrites num [c]) s.fs.files := by
  unfold commentUnit at heq
  cases hid : c.id with
  | none => rw [hid] at heq; simp at heq
  | some cid =>
    rw [hid] at heq
    dsimp only at heq
    split at heq
    · have hs1 : s1 = s.withFS (s.fs.writeFile (MPath.commentFile num cid)
          (marshalComment c) 420) := by
        have := congrArg Prod.fst heq
        exact this.symm
      subst hs1
      funext q
      simp only [St.withFS, FS.writeFile]
      have hw : commentPageWrites num [c]
          = [(MPath.commentFile num cid, marshalComment c)] := by
        simp [commentPageWrites, hid]
      rw [hw]
      simp only [filesAfter, writesLookup, List.foldl_cons, List.foldl_nil]
      by_cases hq : q = MPath.commentFile num cid
      · simp [hq]
      · rw [if_neg hq, if_neg (fun h => hq h.symm)]
    · simp at heq

theorem commentsJoin_files (env : Env) (num : Int) :
    ∀ (cs : List IssueComment) {s s1 : St},
      commentsJoin env num s cs = (s1, CRes.res none) →
      s1.fs.files = filesAfter (commentPageWrites num cs) s.fs.files := by
  intro cs
  induction cs with
  | nil =>
    intro s s1 heq
    unfold commentsJoin at heq
    have : s1 = s := (congrArg Prod.fst heq).symm
    subst this
    simp [commentPageWrites, filesAfter_nil]
  | cons c rest ih =>
    intro s s1 heq
    unfold commentsJoin at heq
    rcases hu : commentUnit env num s c with ⟨s2, r⟩
    rw [hu] at heq
    cases r with
    | panicked => simp at heq
    | res r0 =>
      dsimp only at heq
      rcases hj : commentsJoin env num s2 rest with ⟨s3, r2⟩
      rw [hj] at heq
      cases r2 with
      | panicked => simp at heq
      | res r3 =>
        dsimp only at heq
        cases r0 with
        | some e => simp at heq
        | none =>
          have hr3 : r3 = none := by
            have := congrArg Prod.snd heq
            simpa using this
          subst hr3
          have hs1 : s1 = s3 := (congrArg Prod.fst heq).symm
          subst hs1
          rw [commentPageWrites_cons, filesAfter_append]
          rw [ih hj, commentUnit_files env num c hu]

theorem writeComments_files (env : Env) {s s1 : St} (issue : Issue)
    (num : Int) (cs : List IssueComment) (hnum : issue.number = some num)
    (heq : writeComments env s issue cs = (s1, CRes.res none)) :
    s1.fs.files = filesAfter (commentPageWrites num cs) s.fs.files := by
  unfold writeComments at heq
  rw [hnum] at heq
  dsimp only at heq
  have := commentsJoin_files env num cs heq
  simpa [St.printf] using this

end M1

namespace M1

theorem commentLoop_files (env : Env) (num : Int) (issue : Issue)
    (hnum : issue.number = some num) :
    ∀ (fuel : Nat) {s s1 : St} (page : Nat),
      commentLoop env num issue fuel s page = (s1, URes.success) →
      s1.fs.files = filesAfter (commentLoopWrites env num fuel page) s.fs.files := by
  intro fuel
  induction fuel with
  | zero => intro s s1 page heq; simp [commentLoop] at heq
  | succ f ih =>
    intro s s1 page heq
    rw [commentLoop] at heq
    dsimp only at heq
    split at heq
    · simp at heq
    · split at heq
      · simp at heq
      · simp at heq
      · rename_i s2 hw
        have hw2 := writeComments_files env issue num (env.commentPages num page).1
          hnum hw
        have hbase : s2.fs.files
            = filesAfter (commentPageWrites num (env.commentPages num page).1)
                s.fs.files := by
          simpa [St.withFS, St.printf, FS.callEvent] using hw2
        split at heq
        · rename_i hz
          have hs1 : s1 = s2 := (congrArg Prod.fst heq).symm
          subst hs1
          rw [hbase]
          simp only [commentLoopWrites, commentLoopPages]
          rw [if_pos hz]
          simp
        · rename_i hz
          rw [ih (env.commentPages num page).2 heq, hbase]
          rw [← filesAfter_append]
          simp only [commentLoopWrites, commentLoopPages]
          rw [if_neg hz]
          simp

end M1

namespace M1

theorem issueUnit_files (env : Env) (fuel : Nat) {s s1 : St} (issue : Issue)
    (num : Int) (racy : Issue) (hnum : issue.number = some num)
    (heq : issueUnit env fuel s issue num racy = (s1, URes.success)) :
    s1.fs.files = filesAfter (issueUnitWrites env fuel issue num racy) s.fs.files := by
  unfold issueUnit at heq
  cases hc : racy.comments with
  | none =>
    rw [hc] at heq
    dsimp only at heq
    split at heq
    · split at heq
      · simp at heq
      · simp at heq
    · simp at heq
  | some cnt =>
    rw [hc] at heq
    split at heq
    · rename_i hbad
      exact absurd hbad (by simp)
    · rename_i cid hcid
      obtain rfl : cnt = cid := Option.some.inj hcid
      split at heq
      · rename_i hz
        dsimp only at heq
        split at heq
        · split at heq
          · have hs1 : s1 = (((s.printf (.startedProcessing num)).withFS
                (((s.printf (.startedProcessing num)).fs).mkdirAll
                  (MDir.issueParentDir num) 493)).withFS
                ((((s.printf (.startedProcessing num)).withFS
                  (((s.printf (.startedProcessing num)).fs).mkdirAll
                    (MDir.issueParentDir num) 493)).fs).writeFile
                  (MPath.issueFile num) (marshalIssue issue) 420)) :=
              (congrArg Prod.fst heq).symm
            subst hs1
            funext q
            simp only [St.withFS, St.printf, FS.mkdirAll, FS.writeFile,
              issueUnitWrites, hc]
            rw [if_pos hz]
            simp only [filesAfter, writesLookup, List.foldl_cons, List.foldl_nil]
            by_cases hq : q = MPath.issueFile num
            · simp [hq]
            · rw [if_neg hq, if_neg (fun h => hq h.symm)]
          · simp at heq
        · simp at heq
      · rename_i hz
        dsimp only at heq
        split at heq
        · split at heq
          · split at heq
            · split at heq
              · rename_i s2 hcl
                have hs1 : s1 = s2.printf (.finishedProcessing num) :=
                  (congrArg Prod.fst heq).symm
                subst hs1
                have hfl := commentLoop_files env num issue hnum fuel 0 hcl
                funext q
                simp only [St.printf]
                rw [hfl]
                simp only [St.withFS, St.printf, FS.mkdirAll, FS.writeFile,
                  issueUnitWrites, hc]
                rw [if_neg hz]
                rw [show ((MPath.issueFile num, marshalIssue issue)
                    :: commentLoopWrites env num fuel 0)
                  = [(MPath.issueFile num, marshalIssue issue)]
                    ++ commentLoopWrites env num fuel 0 from rfl]
                rw [filesAfter_append]
                congr 1
                funext q2
                simp only [filesAfter, writesLookup, List.foldl_cons, List.foldl_nil]
                by_cases hq : MPath.issueFile num = q2
                · simp [hq]
                · rw [if_neg (fun h => hq h.symm), if_neg hq]
              · rename_i s2 r2 hne hcl
                exact absurd (congrArg Prod.snd heq) hne
            · simp at heq
          · simp at heq
        · simp at heq

end M1

namespace M1

theorem issuesJoin_files (env : Env) (fuel : Nat) :
    ∀ (prs : List (Issue × Issue)) {s s1 : St},
      issuesJoin env fuel s prs = (s1, BatchRes.res none) →
      s1.fs.files = filesAfter (batchWrites env fuel prs) s.fs.files := by
  intro prs
  induction prs with
  | nil =>
    intro s s1 heq
    have : s1 = s := (congrArg Prod.fst heq).symm
    subst this
    simp [batchWrites, filesAfter_nil]
  | cons pr0 rest ih =>
    intro s s1 heq
    rcases pr0 with ⟨issue, racy⟩
    unfold issuesJoin at heq
    cases hnum : issue.number with
    | none => rw [hnum] at heq; simp at heq
    | some num =>
      rw [hnum] at heq
      dsimp only at heq
      rcases hu : issueUnit env fuel s issue num racy with ⟨s2, r⟩
      rw [hu] at heq
      cases r with
      | success =>
        rw [ih heq, issueUnit_files env fuel issue num racy hnum hu]
        rw [← filesAfter_append]
        simp [batchWrites, hnum]
      | failure e =>
        dsimp only at heq
        rcases hj : issuesJoin env fuel s2 rest with ⟨s3, r2⟩
        rw [hj] at heq
        cases r2 <;> simp at heq
      | fatal => simp at heq
      | panicked => simp at heq
      | diverged => simp at heq

theorem writeIssues_files (env : Env) (fuel : Nat) {s s1 : St}
    (issues reads : List Issue)
    (heq : writeIssues env fuel s issues reads = (s1, BatchRes.res none)) :
    s1.fs.files = filesAfter (batchWrites env fuel (issues.zip reads)) s.fs.files := by
  unfold writeIssues at heq
  have := issuesJoin_files env fuel (issues.zip reads) heq
  simpa [St.printf] using this

theorem mainLoop_files (env : Env) (fuel : Nat) (reads : Nat → List Issue) :
    ∀ (f : Nat) {s s1 : St} (page : Nat),
      mainLoop env fuel reads f s page = (s1, RunRes.ok) →
      s1.fs.files = filesAfter (driverWrites env fuel reads f page) s.fs.files := by
  intro f
  induction f with
  | zero => intro s s1 page heq; simp [mainLoop] at heq
  | succ f ih =>
    intro s s1 page heq
    rw [mainLoop] at heq
    dsimp only at heq
    split at heq
    · simp at heq
    · split at heq
      · rename_i s2 hw
        have hw2 := writeIssues_files env fuel (env.issuePages page).1 (reads page) hw
        have hbase : s2.fs.files
            = filesAfter (batchWrites env fuel
                ((env.issuePages page).1.zip (reads page))) s.fs.files := by
          simpa [St.withFS, St.printf, FS.callEvent] using hw2
        split at heq
        · rename_i hz
          have hs1 : s1 = s2.printf .noMorePages := (congrArg Prod.fst heq).symm
          subst hs1
          funext q
          simp only [St.printf]
          rw [hbase]
          simp only [driverWrites]
          rw [if_pos hz]
          simp [filesAfter_append, filesAfter_nil]
        · rename_i hz
          rw [ih (env.issuePages page).2 heq, hbase]
          rw [← filesAfter_append]
          simp only [driverWrites]
          rw [if_neg hz]
      · simp at heq
      · simp at heq
      · simp at heq
      · simp at heq

theorem mainRun_files (env : Env) (fuel : Nat) (reads : Nat → List Issue)
    {s1 : St} (heq : mainRun env fuel reads St.init = (s1, RunRes.ok)) :
    s1.fs.files = filesAfter (driverWrites env fuel reads fuel 0)
      (fun _ => none) := by
  unfold mainRun at heq
  split at heq
  · have := mainLoop_files env fuel reads fuel 0 heq
    simpa [St.init, FS.init] using this
  · simp at heq

end M1

theorem commentPageWrites_key (num : Int) (cs : List IssueComment) :
    ∀ w ∈ commentPageWrites num cs, ∃ cm ∈ cs, ∃ cid,
      cm.id = some cid ∧ w = (MPath.commentFile num cid, marshalComment cm) := by
  intro w hw
  unfold commentPageWrites at hw
  rcases List.mem_filterMap.1 hw with ⟨cm, hcm, hmap⟩
  rcases Option.map_eq_some'.1 hmap with ⟨cid, hcid, hw2⟩
  exact ⟨cm, hcm, cid, hcid, hw2.symm⟩

theorem commentLoopWrites_key (env : Env) (num : Int) (fuel p : Nat) :
    ∀ w ∈ commentLoopWrites env num fuel p, ∃ cm ∈ (commentLoopPages env num fuel p).flatten,
      ∃ cid, cm.id = some cid ∧ w = (MPath.commentFile num cid, marshalComment cm) := by
  intro w hw
  unfold commentLoopWrites at hw
  rcases List.mem_flatMap.1 hw with ⟨page, hpage, hwp⟩
  rcases commentPageWrites_key num page w hwp with ⟨cm, hcm, cid, hcid, hw2⟩
  exact ⟨cm, List.mem_flatten.2 ⟨page, hpage, hcm⟩, cid, hcid, hw2⟩

theorem issueUnitWrites_lookup_issueFile (env : Env) (fuel : Nat)
    (issue : Issue) (num : Int) (racy : Issue) (num' : Int) :
    writesLookup (issueUnitWrites env fuel issue num racy) (MPath.issueFile num')
      = if num = num' then some (marshalIssue issue) else none := by
  unfold issueUnitWrites
  rw [writesLookup_cons]
  have htail : writesLookup (match racy.comments with
      | none => []
      | some cnt => if cnt ≤ 0 then [] else commentLoopWrites env num fuel 0)
      (MPath.issueFile num') = none := by
    apply writesLookup_none_of_no_key
    intro w hw
    cases hc : racy.comments with
    | none => rw [hc] at hw; simp at hw
    | some cnt =>
      rw [hc] at hw
      split at hw
      · simp at hw
      · split at hw
        · simp at hw
        · rcases commentLoopWrites_key env num fuel 0 w hw with ⟨cm, _, cid, _, hw2⟩
          rw [hw2]
          simp
  rw [htail]
  by_cases h : num = num'
  · simp [h]
  · simp [h, fun hh => h (MPath.issueFile.inj hh)]

theorem batchWrites_cons (env : Env) (fuel : Nat) (pr : Issue × Issue)
    (rest : List (Issue × Issue)) :
    batchWrites env fuel (pr :: rest)
      = (match pr.1.number with
         | none => []
         | some num => issueUnitWrites env fuel pr.1 num pr.2)
        ++ batchWrites env fuel rest := by
  unfold batchWrites
  simp [List.flatMap_cons]

theorem batchWrites_lookup_none (env : Env) (fuel : Nat) :
    ∀ (prs : List (Issue × Issue)) (num : Int),
      (∀ pr ∈ prs, ∀ n, pr.1.number = some n → n ≠ num) →
      writesLookup (batchWrites env fuel prs) (MPath.issueFile num) = none := by
  intro prs
  induction prs with
  | nil => intro num _; rfl
  | cons pr0 rest ih =>
    intro num h
    rw [batchWrites_cons, writesLookup_append,
      ih num (fun pr hpr => h pr (by simp [hpr]))]
    cases hn : pr0.1.number with
    | none => rfl
    | some n =>
      rw [issueUnitWrites_lookup_issueFile]
      rw [if_neg (h pr0 (by simp) n hn)]

theorem batchWrites_lookup (env : Env) (fuel : Nat) :
    ∀ (prs : List (Issue × Issue)) (i racy : Issue) (num : Int),
      (i, racy) ∈ prs → i.number = some num →
      (prs.map Prod.fst).Pairwise (fun a b => a.number ≠ b.number) →
      writesLookup (batchWrites env fuel prs) (MPath.issueFile num)
        = some (marshalIssue i) := by
  intro prs
  induction prs with
  | nil => intro i racy num hmem; simp at hmem
  | cons pr0 rest ih =>
    intro i racy num hmem hnum hdist
    rw [List.map_cons, List.pairwise_cons] at hdist
    rw [batchWrites_cons, writesLookup_append]
    rcases List.mem_cons.1 hmem with hh | hrest
    · have hrnone : writesLookup (batchWrites env fuel rest)
          (MPath.issueFile num) = none := by
        apply batchWrites_lookup_none
        intro pr hpr n hn hcontra
        subst hcontra
        have := hdist.1 pr.1 (List.mem_map_of_mem Prod.fst hpr)
        rw [← hh] at this
        exact this (hnum.trans hn.symm)
      rw [hrnone, ← hh]
      simp only [hnum]
      rw [issueUnitWrites_lookup_issueFile]
      simp
    · rw [ih i racy num hrest hnum hdist.2]

theorem mem_zip_left {α β : Type} :
    ∀ (l1 : List α) (l2 : List β) (x : α), x ∈ l1 → l1.length = l2.length →
      ∃ y, (x, y) ∈ l1.zip l2 := by
  intro l1
  induction l1 with
  | nil => intro l2 x hx; simp at hx
  | cons a l1' ih =>
    intro l2 x hx hlen
    cases l2 with
    | nil => simp at hlen
    | cons b l2' =>
      rcases List.mem_cons.1 hx with rfl | hx'
      · exact ⟨b, by simp⟩
      · rcases ih l2' x hx' (by simpa using hlen) with ⟨y, hy⟩
        exact ⟨y, by simp [hy]⟩

theorem driverWrites_succ (env : Env) (fuel : Nat) (reads : Nat → List Issue)
    (f p : Nat) :
    driverWrites env fuel reads (f+1) p
      = batchWrites env fuel ((env.issuePages p).1.zip (reads p)) ++
          (if (env.issuePages p).2 = 0 then []
           else driverWrites env fuel reads f (env.issuePages p).2) := rfl

theorem runPagesIssues_succ (env : Env) (f p : Nat) :
    runPagesIssues env (f+1) p
      = (env.issuePages p).1 ++
          (if (env.issuePages p).2 = 0 then []
           else runPagesIssues env f (env.issuePages p).2) := rfl

theorem driverWrites_lookup_none (env : Env) (fuel : Nat)
    (reads : Nat → List Issue) :
    ∀ (f p : Nat) (num : Int),
      (∀ b ∈ runPagesIssues env f p, b.number ≠ some num) →
      writesLookup (driverWrites env fuel reads f p) (MPath.issueFile num) = none := by
  intro f
  induction f with
  | zero => intro p num _; rfl
  | succ f ih =>
    intro p num h
    simp only [runPagesIssues_succ] at h
    rw [driverWrites_succ, writesLookup_append]
    have hbatch : writesLookup (batchWrites env fuel
        ((env.issuePages p).1.zip (reads p))) (MPath.issueFile num) = none := by
      apply batchWrites_lookup_none
      intro pr hpr n hn hcontra
      subst hcontra
      have hmem : pr.1 ∈ (env.issuePages p).1 ++
          (if (env.issuePages p).2 = 0 then []
           else runPagesIssues env f (env.issuePages p).2) :=
        List.mem_append_left _ (List.of_mem_zip hpr).1
      exact h pr.1 hmem hn
    by_cases hz : (env.issuePages p).2 = 0
    · rw [if_pos hz]
      simpa [writesLookup] using hbatch
    · rw [if_neg hz]
      rw [if_neg hz] at h
      rw [ih (env.issuePages p).2 num
        (fun b hb => h b (List.mem_append_right _ hb))]
      rw [hbatch]

theorem driverWrites_lookup (env : Env) (fuel : Nat)
    (reads : Nat → List Issue)
    (hlen : ∀ p, (reads p).length = ((env.issuePages p).1).length) :
    ∀ (f p : Nat) (i : Issue) (num : Int),
      i ∈ runPagesIssues env f p → i.number = some num →
      (runPagesIssues env f p).Pairwise (fun a b => a.number ≠ b.number) →
      writesLookup (driverWrites env fuel reads f p) (MPath.issueFile num)
        = some (marshalIssue i) := by
  intro f
  induction f with
  | zero => intro p i num hmem; simp [runPagesIssues] at hmem
  | succ f ih =>
    intro p i num hmem hnum hdist
    rw [runPagesIssues_succ] at hmem hdist
    rw [driverWrites_succ, writesLookup_append]
    have hzipfst : ((env.issuePages p).1.zip (reads p)).map Prod.fst
        = (env.issuePages p).1 :=
      List.map_fst_zip _ _ (le_of_eq (hlen p).symm)
    by_cases hz : (env.issuePages p).2 = 0
    · rw [if_pos hz] at hmem hdist ⊢
      simp only [List.append_nil] at hmem hdist
      have hbatch : writesLookup (batchWrites env fuel
          ((env.issuePages p).1.zip (reads p))) (MPath.issueFile num)
          = some (marshalIssue i) := by
        rcases mem_zip_left (env.issuePages p).1 (reads p) i hmem
            (hlen p).symm with ⟨y, hy⟩
        refine batchWrites_lookup env fuel _ i y num hy hnum ?_
        rw [hzipfst]
        exact hdist
      simpa [writesLookup] using hbatch
    · rw [if_neg hz] at hmem hdist ⊢
      rw [List.pairwise_append] at hdist
      rcases List.mem_append.1 hmem with hpage | hrest
      · have hbatch : writesLookup (batchWrites env fuel
            ((env.issuePages p).1.zip (reads p))) (MPath.issueFile num)
            = some (marshalIssue i) := by
          rcases mem_zip_left (env.issuePages p).1 (reads p) i hpage
              (hlen p).symm with ⟨y, hy⟩
          refine batchWrites_lookup env fuel _ i y num hy hnum ?_
          rw [hzipfst]
          exact hdist.1
        have hrnone : writesLookup (driverWrites env fuel reads f
            (env.issuePages p).2) (MPath.issueFile num) = none := by
          apply driverWrites_lookup_none
          intro b hb hcontra
          exact (hdist.2.2 i hpage b hb) (hnum.trans hcontra.symm)
        rw [hrnone, hbatch]
      · rw [ih (env.issuePages p).2 i num hrest hnum hdist.2.1]

theorem issueUnitWrites_mem (env : Env) (fuel : Nat) (issue : Issue)
    (num : Int) (racy : Issue) :
    ∀ w ∈ issueUnitWrites env fuel issue num racy,
      w = (MPath.issueFile num, marshalIssue issue)
      ∨ ∃ cm ∈ runCommentsFor env fuel num, ∃ cid,
          cm.id = some cid ∧ w = (MPath.commentFile num cid, marshalComment cm) := by
  intro w hw
  unfold issueUnitWrites at hw
  rcases List.mem_cons.1 hw with hh | htail
  · exact Or.inl hh
  · right
    cases hc : racy.comments with
    | none => rw [hc] at htail; simp at htail
    | some cnt =>
      rw [hc] at htail
      split at htail
      · simp at htail
      · split at htail
        · simp at htail
        · rcases commentLoopWrites_key env num fuel 0 w htail with ⟨cm, hcm, cid, hcid, hw2⟩
          exact ⟨cm, hcm, cid, hcid, hw2⟩

theorem batchWrites_mem (env : Env) (fuel : Nat) :
    ∀ (prs : List (Issue × Issue)) (w : MPath × Content), w ∈ batchWrites env fuel prs →
      (∃ i n, i.number = some n ∧ w = (MPath.issueFile n, marshalIssue i))
      ∨ (∃ n cm cid, cm.id = some cid ∧ cm ∈ runCommentsFor env fuel n
          ∧ w = (MPath.commentFile n cid, marshalComment cm)) := by
  intro prs
  induction prs with
  | nil => intro w hw; simp [batchWrites] at hw
  | cons pr0 rest ih =>
    intro w hw
    rw [batchWrites_cons] at hw
    rcases List.mem_append.1 hw with hh | htail
    · cases hn : pr0.1.number with
      | none => rw [hn] at hh; simp at hh
      | some n =>
        rw [hn] at hh
        rcases issueUnitWrites_mem env fuel pr0.1 n pr0.2 w hh with h1 | ⟨cm, hcm, cid, hcid, hw2⟩
        · exact Or.inl ⟨pr0.1, n, hn, h1⟩
        · exact Or.inr ⟨n, cm, cid, hcid, hcm, hw2⟩
    · exact ih w htail

theorem driverWrites_mem (env : Env) (fuel : Nat) (reads : Nat → List Issue) :
    ∀ (f p : Nat) (w : MPath × Content), w ∈ driverWrites env fuel reads f p →
      (∃ i n, i.number = some n ∧ w = (MPath.issueFile n, marshalIssue i))
      ∨ (∃ n cm cid, cm.id = some cid ∧ cm ∈ runCommentsFor env fuel n
          ∧ w = (MPath.commentFile n cid, marshalComment cm)) := by
  intro f
  induction f with
  | zero => intro p w hw; simp [driverWrites] at hw
  | succ f ih =>
    intro p w hw
    rw [driverWrites_succ] at hw
    rcases List.mem_append.1 hw with hh | htail
    · exact batchWrites_mem env fuel _ w hh
    · split at htail
      · simp at htail
      · exact ih (env.issuePages p).2 w htail

/-- C4 (confirmed): round-trip of the mirrored files.  After a successful
run starting from an empty store, (a) for every fetched issue — assuming
the source assigns pairwise-distinct issue numbers, as the data model
requires — the file at the issue's derived path holds exactly the JSON
serialization of the fetched record, with permission bits 0644, and
deserializing that content returns the fetched record; (b) every comment
file present holds the JSON serialization of a comment the source returned
for that issue, under that comment's id, and deserializing returns that
comment record. -/
theorem c4_roundtrip (env : Env) (fuel : Nat) (reads : Nat → List Issue)
    (hlen : ∀ p, (reads p).length = ((env.issuePages p).1).length)
    (hdist : (runPagesIssues env fuel 0).Pairwise (fun a b => a.number ≠ b.number))
    (s1 : M1.St) (hok : M1.mainRun env fuel reads M1.St.init = (s1, RunRes.ok)) :
    (∀ i ∈ runPagesIssues env fuel 0, ∀ num, i.number = some num →
      s1.fs.files (MPath.issueFile num) = some (marshalIssue i, 420)
      ∧ unmarshalIssue (marshalIssue i) = some i)
    ∧ (∀ num cid c perm,
        s1.fs.files (MPath.commentFile num cid) = some (c, perm) →
        ∃ cm ∈ runCommentsFor env fuel num, cm.id = some cid
          ∧ c = marshalComment cm ∧ unmarshalComment c = some cm ∧ perm = 420) := by
  have hfiles := M1.mainRun_files env fuel reads hok
  constructor
  · intro i hi num hnum
    refine ⟨?_, rfl⟩
    rw [hfiles]
    unfold filesAfter
    rw [driverWrites_lookup env fuel reads hlen fuel 0 i num hi hnum hdist]
  · intro num cid c perm hfile
    rw [hfiles] at hfile
    unfold filesAfter at hfile
    cases hl : writesLookup (driverWrites env fuel reads fuel 0)
        (MPath.commentFile num cid) with
    | none => rw [hl] at hfile; simp at hfile
    | some c2 =>
      rw [hl] at hfile
      have hc2 : c2 = c ∧ perm = 420 := by
        have := Option.some.inj hfile
        exact ⟨congrArg Prod.fst this, (congrArg Prod.snd this).symm⟩
      rcases writesLookup_mem _ _ _ hl with ⟨w, hwmem, hwkey, hwval⟩
      rcases driverWrites_mem env fuel reads fuel 0 w hwmem with
        ⟨i, n, hin, hw⟩ | ⟨n, cm, cid2, hcid, hcm, hw⟩
      · rw [hw] at hwkey
        simp at hwkey
      · rw [hw] at hwkey hwval
        simp only at hwkey hwval
        have hn : n = num ∧ cid2 = cid := by
          have := MPath.commentFile.inj hwkey
          exact this
        rcases hn with ⟨rfl, rfl⟩
        refine ⟨cm, hcm, hcid, ?_, ?_, hc2.2⟩
        · rw [← hc2.1, ← hwval]
        · rw [← hc2.1, ← hwval]
          rfl

/-- Witness for `c4_roundtrip`: the concrete successful run over `envC7`
leaves the marshalled issue 1 at its derived path (round-tripping to the
fetched record), and the comment file content at `commentFile 1 10` is the
marshalled fetched comment. -/
theorem c4_roundtrip_witness :
    ((M1.mainRun envC7 3 readsC7 M1.St.init).1).fs.files (MPath.issueFile 1)
      = some (marshalIssue iOne, 420)
    ∧ unmarshalIssue (marshalIssue iOne) = some iOne
    ∧ ∃ cmt ∈ runCommentsFor envC7 3 1, cmt.id = some 10
        ∧ marshalComment (cm 10) = marshalComment cmt
        ∧ unmarshalComment (marshalComment (cm 10)) = some cmt
        ∧ 420 = 420 := by
  have h2 : (M1.mainRun envC7 3 readsC7 M1.St.init).2 = RunRes.ok := by decide
  have hok : M1.mainRun envC7 3 readsC7 M1.St.init
      = ((M1.mainRun envC7 3 readsC7 M1.St.init).1, RunRes.ok) := by
    rw [← h2]
  have h := c4_roundtrip envC7 3 readsC7 ?hlen ?hdist _ hok
  case hlen =>
    intro p
    by_cases hp : p = 0 <;> simp [envC7, readsC7, benignEnv, hp]
  case hdist => decide
  refine ⟨(h.1 iOne (by decide) 1 rfl).1, (h.1 iOne (by decide) 1 rfl).2, ?_⟩
  exact h.2 1 10 (marshalComment (cm 10)) 420 (by decide)

/-! ## Logging behaviour of the two copies (C5) -/

namespace M1

theorem commentUnit_stderr (env : Env) (num : Int) (s : St) (c : IssueComment) :
    ((commentUnit env num s c).1).stderr = s.stderr := by
  unfold commentUnit
  cases c.id with
  | none => rfl
  | some cid =>
    dsimp only
    split <;> rfl

theorem commentsJoin_stderr (env : Env) (num : Int) :
    ∀ (cs : List IssueComment) (s : St),
      ((commentsJoin env num s cs).1).stderr = s.stderr := by
  intro cs
  induction cs with
  | nil => intro s; rfl
  | cons c rest ih =>
    intro s
    unfold commentsJoin
    rcases hu : commentUnit env num s c with ⟨s1, r⟩
    have h1 : s1.stderr = s.stderr := by
      have := commentUnit_stderr env num s c
      rw [hu] at this; exact this
    cases r with
    | panicked => exact h1
    | res r0 =>
      dsimp only
      rcases hj : commentsJoin env num s1 rest with ⟨s2, r2⟩
      have h2 : s2.stderr = s1.stderr := by
        have := ih s1; rw [hj] at this; exact this
      cases r2 with
      | panicked => exact h2.trans h1
      | res r3 => exact h2.trans h1

theorem writeComments_stderr (env : Env) (s : St) (issue : Issue)
    (cs : List IssueComment) :
    ((writeComments env s issue cs).1).stderr = s.stderr := by
  unfold writeComments
  cases issue.number with
  | none => rfl
  | some num => exact commentsJoin_stderr env num cs _

theorem commentLoop_stderr (env : Env) (num : Int) (issue : Issue) :
    ∀ (fuel : Nat) (s : St) (page : Nat),
      (commentLoop env num issue fuel s page).2 ≠ URes.fatal →
      ((commentLoop env num issue fuel s page).1).stderr = s.stderr := by
  intro fuel
  induction fuel with
  | zero => intro s page _; rfl
  | succ f ih =>
    intro s page hres
    rw [commentLoop] at hres ⊢
    dsimp only at hres ⊢
    split at hres
    · exact absurd rfl hres
    · rename_i herr
      rw [if_neg herr]
      split at hres
      · rename_i s1 heq
        have h1 : s1.stderr = s.stderr := by
          have := writeComments_stderr env ((s.printf (.listCommentsCall num page)).withFS
            (((s.printf (.listCommentsCall num page)).fs).callEvent
              (.listComments num page))) issue (env.commentPages num page).1
          rw [heq] at this
          simpa [St.withFS, St.printf, FS.callEvent] using this
        exact h1
      · rename_i s1 heq
        exact absurd rfl hres
      · rename_i s1 heq
        have h1 : s1.stderr = s.stderr := by
          have := writeComments_stderr env ((s.printf (.listCommentsCall num page)).withFS
            (((s.printf (.listCommentsCall num page)).fs).callEvent
              (.listComments num page))) issue (env.commentPages num page).1
          rw [heq] at this
          simpa [St.withFS, St.printf, FS.callEvent] using this
        split at hres
        · rename_i hz
          rw [if_pos hz]
          exact h1
        · rename_i hz
          rw [if_neg hz]
          rw [ih s1 (env.commentPages num page).2 hres]
          exact h1

end M1

namespace M1

theorem commentLoop_stderr_eq (env : Env) (num : Int) (issue : Issue)
    (fuel page : Nat) {s s1 : St} {r : URes} (hr : r ≠ URes.fatal)
    (heq : commentLoop env num issue fuel s page = (s1, r)) :
    s1.stderr = s.stderr := by
  have := commentLoop_stderr env num issue fuel s page (by rw [heq]; simpa using hr)
  rw [heq] at this
  exact this

theorem issueUnit_stderr_eq (env : Env) (fuel : Nat) {s s1 : St} (issue : Issue)
    (num : Int) (racy : Issue) {r : URes} (hr : r ≠ URes.fatal)
    (heq : issueUnit env fuel s issue num racy = (s1, r)) :
    s1.stderr = s.stderr := by
  unfold issueUnit at heq
  cases hc : racy.comments with
  | none =>
    rw [hc] at heq
    dsimp only at heq
    split at heq
    · split at heq
      · have hs1 : s1 = _ := (congrArg Prod.fst heq).symm
        subst hs1
        simp [St.withFS, St.printf]
      · have hs1 : s1 = _ := (congrArg Prod.fst heq).symm
        subst hs1
        simp [St.withFS, St.printf]
    · have hs1 : s1 = _ := (congrArg Prod.fst heq).symm
      subst hs1
      simp [St.printf]
  | some cnt =>
    rw [hc] at heq
    split at heq
    · rename_i hbad
      exact absurd hbad (by simp)
    · rename_i cid hcid
      obtain rfl : cnt = cid := Option.some.inj hcid
      split at heq
      · dsimp only at heq
        split at heq
        · split at heq
          · have hs1 : s1 = _ := (congrArg Prod.fst heq).symm
            subst hs1
            simp [St.withFS, St.printf]
          · have hs1 : s1 = _ := (congrArg Prod.fst heq).symm
            subst hs1
            simp [St.withFS, St.printf]
        · have hs1 : s1 = _ := (congrArg Prod.fst heq).symm
          subst hs1
          simp [St.printf]
      · dsimp only at heq
        split at heq
        · split at heq
          · split at heq
            · split at heq
              · rename_i s2 hcl
                have hs1 : s1 = s2.printf (.finishedProcessing num) :=
                  (congrArg Prod.fst heq).symm
                subst hs1
                have h2 := commentLoop_stderr_eq env num issue fuel 0
                  (by simp) hcl
                simp only [St.printf] at h2 ⊢
                simpa [St.withFS, St.printf] using h2
              · rename_i s2 r2 hne hcl
                have hs1 : s1 = s2 := (congrArg Prod.fst heq).symm
                subst hs1
                have hr2 : r2 = r := congrArg Prod.snd heq
                have h2 := commentLoop_stderr_eq env num issue fuel 0
                  (by rw [hr2]; exact hr) hcl
                simpa [St.withFS, St.printf] using h2
            · have hs1 : s1 = _ := (congrArg Prod.fst heq).symm
              subst hs1
              simp [St.withFS, St.printf]
          · have hs1 : s1 = _ := (congrArg Prod.fst heq).symm
            subst hs1
            simp [St.withFS, St.printf]
        · have hs1 : s1 = _ := (congrArg Prod.fst heq).symm
          subst hs1
          simp [St.printf]

end M1

namespace M1

theorem issuesJoin_stderr (env : Env) (fuel : Nat) :
    ∀ (prs : List (Issue × Issue)) (s : St),
      (issuesJoin env fuel s prs).2 ≠ BatchRes.fatal →
      ((issuesJoin env fuel s prs).1).stderr = s.stderr := by
  intro prs
  induction prs with
  | nil => intro s _; rfl
  | cons pr0 rest ih =>
    intro s hres
    rcases pr0 with ⟨issue, racy⟩
    unfold issuesJoin at hres ⊢
    cases hnum : issue.number with
    | none => rfl
    | some num =>
      rw [hnum] at hres
      dsimp only at hres ⊢
      rcases hu : issueUnit env fuel s issue num racy with ⟨s2, r⟩
      rw [hu] at hres
      cases r with
      | success =>
        have h2 : s2.stderr = s.stderr :=
          issueUnit_stderr_eq env fuel issue num racy (by simp) hu
        rw [ih s2 hres]
        exact h2
      | failure e =>
        have h2 : s2.stderr = s.stderr :=
          issueUnit_stderr_eq env fuel issue num racy (by simp) hu
        dsimp only at hres ⊢
        rcases hj : issuesJoin env fuel s2 rest with ⟨s3, r2⟩
        rw [hj] at hres
        have h3 : s3.stderr = s2.stderr := by
          have := ih s2
          rw [hj] at this
          refine this ?_
          cases r2 with
          | fatal => exact (hres rfl).elim
          | res o => simp
          | panicked => simp
          | diverged => simp
        cases r2 <;> simpa using h3.trans h2
      | fatal => exact (hres rfl).elim
      | panicked =>
        simpa using issueUnit_stderr_eq env fuel issue num racy (by simp) hu
      | diverged =>
        simpa using issueUnit_stderr_eq env fuel issue num racy (by simp) hu

theorem issuesJoin_stderr_eq (env : Env) (fuel : Nat)
    (prs : List (Issue × Issue)) {s s1 : St} {r : BatchRes}
    (hr : r ≠ BatchRes.fatal) (heq : issuesJoin env fuel s prs = (s1, r)) :
    s1.stderr = s.stderr := by
  have := issuesJoin_stderr env fuel prs s (by rw [heq]; simpa using hr)
  rw [heq] at this
  exact this

theorem mainLoop_ok_stderr (env : Env) (fuel : Nat) (reads : Nat → List Issue) :
    ∀ (f : Nat) (s : St) (page : Nat),
      (mainLoop env fuel reads f s page).2 = RunRes.ok →
      ((mainLoop env fuel reads f s page).1).stderr = s.stderr := by
  intro f
  induction f with
  | zero => intro s page h; simp [mainLoop] at h
  | succ f ih =>
    intro s page hres
    rw [mainLoop] at hres ⊢
    dsimp only at hres ⊢
    split at hres
    · simp at hres
    · rename_i herr
      rw [if_neg herr]
      split at hres
      · rename_i s1 heq
        have h1 : s1.stderr = s.stderr := by
          unfold writeIssues at heq
          dsimp only at heq
          have := issuesJoin_stderr_eq env fuel
            ((env.issuePages page).1.zip (reads page)) (by simp) heq
          simpa [St.withFS, St.printf, FS.callEvent] using this
        split at hres
        · rename_i hz
          rw [if_pos hz]
          simpa [St.printf] using h1
        · rename_i hz
          rw [if_neg hz]
          rw [ih s1 (env.issuePages page).2 hres]
          exact h1
      · simp at hres
      · simp at hres
      · simp at hres
      · simp at hres

theorem mainLoop_ok_noMorePages (env : Env) (fuel : Nat) (reads : Nat → List Issue) :
    ∀ (f : Nat) (s : St) (page : Nat),
      (mainLoop env fuel reads f s page).2 = RunRes.ok →
      Msg.noMorePages ∈ ((mainLoop env fuel reads f s page).1).buffer.map Prod.snd := by
  intro f
  induction f with
  | zero => intro s page h; simp [mainLoop] at h
  | succ f ih =>
    intro s page hres
    rw [mainLoop] at hres ⊢
    dsimp only at hres ⊢
    split at hres
    · simp at hres
    · rename_i herr
      rw [if_neg herr]
      split at hres
      · rename_i s1 heq
        split at hres
        · rename_i hz
          rw [if_pos hz]
          simp [St.printf]
        · rename_i hz
          rw [if_neg hz]
          exact ih s1 (env.issuePages page).2 hres
      · simp at hres
      · simp at hres
      · simp at hres
      · simp at hres

end M1

namespace M2

theorem mainLoop_ok_noMorePages_log (env : Env) (fuel : Nat) (reads : Nat → List Issue) :
    ∀ (f : Nat) (s : St) (page : Nat),
      (mainLoop env fuel reads f s page).2 = RunRes.ok →
      Msg.noMorePages ∈ ((mainLoop env fuel reads f s page).1).stderr.map Prod.snd := by
  intro f
  induction f with
  | zero => intro s page h; simp [mainLoop] at h
  | succ f ih =>
    intro s page hres
    rw [mainLoop] at hres ⊢
    dsimp only at hres ⊢
    split at hres
    · simp at hres
    · rename_i herr
      rw [if_neg herr]
      split at hres
      · rename_i s1 heq
        split at hres
        · rename_i hz
          rw [if_pos hz]
          simp [St.printf]
        · rename_i hz
          rw [if_neg hz]
          exact ih s1 (env.issuePages page).2 hres
      · simp at hres
      · simp at hres
      · simp at hres
      · simp at hres

end M2

namespace M1

theorem commentLoop_fatal_dump (env : Env) (num : Int) (issue : Issue) :
    ∀ (fuel : Nat) (s : St) (page : Nat), s.stderr = [] →
      (commentLoop env num issue fuel s page).2 = URes.fatal →
      ((commentLoop env num issue fuel s page).1).stderr
        = ((commentLoop env num issue fuel s page).1).buffer := by
  intro fuel
  induction fuel with
  | zero => intro s page _ h; simp [commentLoop] at h
  | succ f ih =>
    intro s page hstderr hres
    rw [commentLoop] at hres ⊢
    dsimp only at hres ⊢
    split at hres
    · rename_i herr
      rw [if_pos herr]
      simp [St.fatalf, St.printf, St.withFS, FS.callEvent, hstderr]
    · rename_i herr
      rw [if_neg herr]
      split at hres
      · rename_i s1 heq
        exact absurd hres (by simp)
      · rename_i s1 e heq
        have h1 : s1.stderr = [] := by
          have := writeComments_stderr env ((s.printf (.listCommentsCall num page)).withFS
            (((s.printf (.listCommentsCall num page)).fs).callEvent
              (.listComments num page))) issue (env.commentPages num page).1
          rw [heq] at this
          simpa [St.withFS, St.printf, FS.callEvent, hstderr] using this
        simp [St.fatalf, St.printf, h1]
      · rename_i s1 heq
        have h1 : s1.stderr = [] := by
          have := writeComments_stderr env ((s.printf (.listCommentsCall num page)).withFS
            (((s.printf (.listCommentsCall num page)).fs).callEvent
              (.listComments num page))) issue (env.commentPages num page).1
          rw [heq] at this
          simpa [St.withFS, St.printf, FS.callEvent, hstderr] using this
        split at hres
        · exact absurd hres (by simp)
        · rename_i hz
          rw [if_neg hz]
          exact ih s1 (env.commentPages num page).2 h1 hres

theorem commentLoop_fatal_dump_eq (env : Env) (num : Int) (issue : Issue)
    (fuel page : Nat) {s s1 : St}
    (hstderr : s.stderr = [])
    (heq : commentLoop env num issue fuel s page = (s1, URes.fatal)) :
    s1.stderr = s1.buffer := by
  have := commentLoop_fatal_dump env num issue fuel s page hstderr (by rw [heq])
  rw [heq] at this
  exact this

end M1

namespace M1

theorem issueUnit_fatal_dump_eq (env : Env) (fuel : Nat) {s s1 : St}
    (issue : Issue) (num : Int) (racy : Issue)
    (hstderr : s.stderr = [])
    (heq : issueUnit env fuel s issue num racy = (s1, URes.fatal)) :
    s1.stderr = s1.buffer := by
  unfold issueUnit at heq
  cases hc : racy.comments with
  | none =>
    rw [hc] at heq
    dsimp only at heq
    split at heq
    · split at heq
      · simp at heq
      · simp at heq
    · simp at heq
  | some cnt =>
    rw [hc] at heq
    split at heq
    · rename_i hbad
      exact absurd hbad (by simp)
    · rename_i cid hcid
      obtain rfl : cnt = cid := Option.some.inj hcid
      split at heq
      · dsimp only at heq
        split at heq
        · split at heq
          · simp at heq
          · simp at heq
        · simp at heq
      · dsimp only at heq
        split at heq
        · split at heq
          · split at heq
            · split at heq
              · simp at heq
              · rename_i s2 r2 hne hcl
                have hs1 : s1 = s2 := (congrArg Prod.fst heq).symm
                have hr2 : r2 = URes.fatal := congrArg Prod.snd heq
                subst hs1
                subst hr2
                refine commentLoop_fatal_dump_eq env num issue fuel 0 ?_ hcl
                simp [St.withFS, St.printf, hstderr]
            · simp at heq
          · simp at heq
        · simp at heq

theorem issuesJoin_fatal_dump (env : Env) (fuel : Nat) :
    ∀ (prs : List (Issue × Issue)) (s : St), s.stderr = [] →
      (issuesJoin env fuel s prs).2 = BatchRes.fatal →
      ((issuesJoin env fuel s prs).1).stderr = ((issuesJoin env fuel s prs).1).buffer := by
  intro prs
  induction prs with
  | nil => intro s _ h; simp [issuesJoin] at h
  | cons pr0 rest ih =>
    intro s hstderr hres
    rcases pr0 with ⟨issue, racy⟩
    unfold issuesJoin at hres ⊢
    cases hnum : issue.number with
    | none => rw [hnum] at hres; simp at hres
    | some num =>
      rw [hnum] at hres
      dsimp only at hres ⊢
      rcases hu : issueUnit env fuel s issue num racy with ⟨s2, r⟩
      rw [hu] at hres
      cases r with
      | success =>
        have h2 : s2.stderr = [] := by
          rw [issueUnit_stderr_eq env fuel issue num racy (by simp) hu, hstderr]
        exact ih s2 h2 hres
      | failure e =>
        have h2 : s2.stderr = [] := by
          rw [issueUnit_stderr_eq env fuel issue num racy (by simp) hu, hstderr]
        dsimp only at hres ⊢
        rcases hj : issuesJoin env fuel s2 rest with ⟨s3, r2⟩
        rw [hj] at hres
        have h3 := ih s2 h2
        rw [hj] at h3
        cases r2 with
        | res o => simp at hres
        | fatal => simpa using h3 rfl
        | panicked => simp at hres
        | diverged => simp at hres
      | fatal =>
        simpa using issueUnit_fatal_dump_eq env fuel issue num racy hstderr hu
      | panicked => simp at hres
      | diverged => simp at hres

theorem issuesJoin_fatal_dump_eq (env : Env) (fuel : Nat) {s s1 : St}
    (prs : List (Issue × Issue)) (hstderr : s.stderr = [])
    (heq : issuesJoin env fuel s prs = (s1, BatchRes.fatal)) :
    s1.stderr = s1.buffer := by
  have h := issuesJoin_fatal_dump env fuel prs s hstderr (by rw [heq])
  rw [heq] at h
  exact h

theorem mainLoop_fatal_dump (env : Env) (fuel : Nat) (reads : Nat → List Issue) :
    ∀ (f : Nat) (s : St) (page : Nat), s.stderr = [] →
      (mainLoop env fuel reads f s page).2 = RunRes.fatal →
      ((mainLoop env fuel reads f s page).1).stderr
        = ((mainLoop env fuel reads f s page).1).buffer := by
  intro f
  induction f with
  | zero => intro s page _ h; simp [mainLoop] at h
  | succ f ih =>
    intro s page hstderr hres
    rw [mainLoop] at hres ⊢
    dsimp only at hres ⊢
    split at hres
    · rename_i herr
      rw [if_pos herr]
      simp [St.fatalf, St.printf, St.withFS, FS.callEvent, hstderr]
    · rename_i herr
      rw [if_neg herr]
      split at hres
      · rename_i s1 heq
        have h1 : s1.stderr = [] := by
          unfold writeIssues at heq
          dsimp only at heq
          rw [issuesJoin_stderr_eq env fuel
            ((env.issuePages page).1.zip (reads page)) (by simp) heq]
          simp [St.withFS, St.printf, FS.callEvent, hstderr]
        split at hres
        · simp at hres
        · rename_i hz
          rw [if_neg hz]
          exact ih s1 (env.issuePages page).2 h1 hres
      · rename_i s1 e heq
        have h1 : s1.stderr = [] := by
          unfold writeIssues at heq
          dsimp only at heq
          rw [issuesJoin_stderr_eq env fuel
            ((env.issuePages page).1.zip (reads page)) (by simp) heq]
          simp [St.withFS, St.printf, FS.callEvent, hstderr]
        simp [St.fatalf, St.printf, h1]
      · rename_i s1 heq
        have h1 : s1.stderr = s1.buffer := by
          unfold writeIssues at heq
          dsimp only at heq
          exact issuesJoin_fatal_dump_eq env fuel
            ((env.issuePages page).1.zip (reads page))
            (by simp [St.withFS, St.printf, FS.callEvent, hstderr]) heq
        simpa using h1
      · rename_i s1 heq
        simp at hres
      · rename_i s1 heq
        simp at hres

end M1

/-- **C5** (amended).  Logging behaviour of the two copies, from the
initial state.  On a fully successful run the `debugLogger` copy prints
nothing to stderr and only records its messages — including the final
`no more pages` line — in the in-memory buffer, while the `log`-package
copy prints the `no more pages` line to stderr; on a fatal error the
`debugLogger` copy prints its whole buffer of timestamped diagnostics to
stderr before exit. -/
theorem c5_logging_amended (envA envB : Env) (fuelA fuelB : Nat)
    (readsA readsB : Nat → List Issue)
    (hok1 : (M1.mainRun envA fuelA readsA M1.St.init).2 = RunRes.ok)
    (hok2 : (M2.mainRun envA fuelA readsA M2.St.init).2 = RunRes.ok)
    (hfat : (M1.mainRun envB fuelB readsB M1.St.init).2 = RunRes.fatal) :
    (M1.mainRun envA fuelA readsA M1.St.init).1.stderr = []
    ∧ Msg.noMorePages ∈ ((M1.mainRun envA fuelA readsA M1.St.init).1.buffer.map Prod.snd)
    ∧ Msg.noMorePages ∈ ((M2.mainRun envA fuelA readsA M2.St.init).1.stderr.map Prod.snd)
    ∧ (M1.mainRun envB fuelB readsB M1.St.init).1.stderr
        = (M1.mainRun envB fuelB readsB M1.St.init).1.buffer := by
  refine ⟨?_, ?_, ?_, ?_⟩
  · by_cases ho : envA.openOk
    · unfold M1.mainRun at hok1 ⊢
      rw [if_pos ho] at hok1 ⊢
      rw [M1.mainLoop_ok_stderr envA fuelA readsA fuelA M1.St.init 0 hok1]
      rfl
    · unfold M1.mainRun at hok1
      rw [if_neg ho] at hok1
      simp at hok1
  · by_cases ho : envA.openOk
    · unfold M1.mainRun at hok1 ⊢
      rw [if_pos ho] at hok1 ⊢
      exact M1.mainLoop_ok_noMorePages envA fuelA readsA fuelA M1.St.init 0 hok1
    · unfold M1.mainRun at hok1
      rw [if_neg ho] at hok1
      simp at hok1
  · by_cases ho : envA.openOk
    · unfold M2.mainRun at hok2 ⊢
      rw [if_pos ho] at hok2 ⊢
      exact M2.mainLoop_ok_noMorePages_log envA fuelA readsA fuelA M2.St.init 0 hok2
    · unfold M2.mainRun at hok2
      rw [if_neg ho] at hok2
      simp at hok2
  · by_cases ho : envB.openOk
    · unfold M1.mainRun at hfat ⊢
      rw [if_pos ho] at hfat ⊢
      exact M1.mainLoop_fatal_dump envB fuelB readsB fuelB M1.St.init 0 rfl hfat
    · unfold M1.mainRun
      rw [if_neg ho]
      decide

/-- Closed witness for `c5_logging_amended`: the one-issue benign
scenario of C5 succeeds in both copies, and the same scenario with a
failing issue listing aborts fatally; the theorem applies to these
runs. -/
theorem c5_logging_amended_witness :
    ((M1.mainRun envC5 3 readsC5 M1.St.init).2 = RunRes.ok
     ∧ (M2.mainRun envC5 3 readsC5 M2.St.init).2 = RunRes.ok
     ∧ (M1.mainRun { envC5 with issuesErr := fun _ => true } 3 readsC5 M1.St.init).2
         = RunRes.fatal)
    ∧ ((M1.mainRun envC5 3 readsC5 M1.St.init).1.stderr = []
       ∧ Msg.noMorePages ∈ ((M1.mainRun envC5 3 readsC5 M1.St.init).1.buffer.map Prod.snd)
       ∧ Msg.noMorePages ∈ ((M2.mainRun envC5 3 readsC5 M2.St.init).1.stderr.map Prod.snd)
       ∧ (M1.mainRun { envC5 with issuesErr := fun _ => true } 3 readsC5 M1.St.init).1.stderr
           = (M1.mainRun { envC5 with issuesErr := fun _ => true } 3 readsC5 M1.St.init).1.buffer) :=
  ⟨⟨by decide, by decide, by decide⟩,
   c5_logging_amended envC5 { envC5 with issuesErr := fun _ => true } 3 3 readsC5 readsC5
     (by decide) (by decide) (by decide)⟩

/-! ## Equivalence of the two copies (C8)

The two source files are line-for-line identical except for the logger:
`toLog` is a strict homomorphism from the `debugLogger` copy's states to
the `log`-package copy's states, and every function of the second copy is
the `toLog`-image of the first. -/

theorem toLog_printf (s : M1.St) (m : Msg) :
    toLog (M1.St.printf s m) = M2.St.printf (toLog s) m := by
  simp [toLog, M1.St.printf, M2.St.printf]

theorem toLog_fatalf (s : M1.St) (m : Msg) :
    toLog (M1.St.fatalf s m) = M2.St.fatalf (toLog s) m := by
  simp [toLog, M1.St.fatalf, M1.St.printf, M2.St.fatalf, M2.St.printf]

theorem toLog_withFS (s : M1.St) (fs : FS) :
    toLog (M1.St.withFS s fs) = M2.St.withFS (toLog s) fs := by
  simp [toLog, M1.St.withFS, M2.St.withFS]

theorem toLog_fs (s : M1.St) : (toLog s).fs = s.fs := rfl

theorem commentUnit_toLog (env : Env) (num : Int) (s : M1.St) (c : IssueComment) :
    M2.commentUnit env num (toLog s) c
      = (toLog (M1.commentUnit env num s c).1, (M1.commentUnit env num s c).2) := by
  unfold M1.commentUnit M2.commentUnit
  cases hid : c.id with
  | none => rfl
  | some cid =>
    dsimp only
    by_cases hw : env.writeOk (MPath.commentFile num cid)
    · rw [if_pos hw, if_pos hw]
      simp [toLog_withFS, toLog_fs]
    · rw [if_neg hw, if_neg hw]

theorem commentsJoin_toLog (env : Env) (num : Int) :
    ∀ (cs : List IssueComment) (s : M1.St),
      M2.commentsJoin env num (toLog s) cs
        = (toLog (M1.commentsJoin env num s cs).1,
           (M1.commentsJoin env num s cs).2) := by
  intro cs
  induction cs with
  | nil => intro s; rfl
  | cons c rest ih =>
    intro s
    rcases h1 : M1.commentUnit env num s c with ⟨s1, r1⟩
    have h2 : M2.commentUnit env num (toLog s) c = (toLog s1, r1) := by
      rw [commentUnit_toLog, h1]
    simp only [M1.commentsJoin, M2.commentsJoin, h1, h2]
    cases r1 with
    | panicked => rfl
    | res r =>
      dsimp only
      rcases hj : M1.commentsJoin env num s1 rest with ⟨s2, q1⟩
      have hj2 : M2.commentsJoin env num (toLog s1) rest = (toLog s2, q1) := by
        rw [ih s1, hj]
      simp only [hj, hj2]
      cases q1 with
      | panicked => rfl
      | res r2 => rfl

theorem writeComments_toLog (env : Env) (s : M1.St) (issue : Issue)
    (comments : List IssueComment) :
    M2.writeComments env (toLog s) issue comments
      = (toLog (M1.writeComments env s issue comments).1,
         (M1.writeComments env s issue comments).2) := by
  unfold M1.writeComments M2.writeComments
  cases hn : issue.number with
  | none => rfl
  | some num =>
    dsimp only
    rw [← toLog_printf, commentsJoin_toLog]

theorem toLog_logCall (s : M1.St) (m : Msg) (e : Event) :
    M2.St.withFS (M2.St.printf (toLog s) m)
        ((M2.St.printf (toLog s) m).fs.callEvent e)
      = toLog (M1.St.withFS (M1.St.printf s m)
          ((M1.St.printf s m).fs.callEvent e)) := by
  simp [toLog, M1.St.printf, M2.St.printf, M1.St.withFS, M2.St.withFS]

theorem commentLoop_toLog (env : Env) (num : Int) (issue : Issue) :
    ∀ (fuel : Nat) (s : M1.St) (page : Nat),
      M2.commentLoop env num issue fuel (toLog s) page
        = (toLog (M1.commentLoop env num issue fuel s page).1,
           (M1.commentLoop env num issue fuel s page).2) := by
  intro fuel
  induction fuel with
  | zero => intro s page; rfl
  | succ f ih =>
    intro s page
    rw [M1.commentLoop, M2.commentLoop]
    dsimp only
    rw [toLog_logCall]
    by_cases herr : env.commentsErr num page
    · rw [if_pos herr, if_pos herr, ← toLog_fatalf]
    · rw [if_neg herr, if_neg herr]
      rw [writeComments_toLog]
      rcases hA : M1.writeComments env
          (M1.St.withFS (M1.St.printf s (Msg.listCommentsCall num page))
            ((M1.St.printf s (Msg.listCommentsCall num page)).fs.callEvent
              (Event.listComments num page)))
          issue (env.commentPages num page).1 with ⟨s1, r1⟩
      dsimp only
      cases r1 with
      | panicked => rfl
      | res r =>
        cases r with
        | some e => dsimp only; rw [← toLog_fatalf]
        | none =>
          dsimp only
          by_cases hz : (env.commentPages num page).2 = 0
          · rw [if_pos hz, if_pos hz]
          · rw [if_neg hz, if_neg hz, ih]

theorem issueUnit_toLog (env : Env) (fuel : Nat) (s : M1.St) (issue : Issue)
    (num : Int) (racy : Issue) :
    M2.issueUnit env fuel (toLog s) issue num racy
      = (toLog (M1.issueUnit env fuel s issue num racy).1,
         (M1.issueUnit env fuel s issue num racy).2) := by
  rcases hA : M1.issueUnit env fuel s issue num racy with ⟨s1, r1⟩
  unfold M1.issueUnit at hA
  unfold M2.issueUnit
  dsimp only at hA ⊢
  rw [← toLog_printf]
  split at hA
  · rename_i hd
    rw [if_pos hd, toLog_fs, ← toLog_withFS]
    split at hA
    · rename_i hw
      rw [if_pos hw, toLog_fs, ← toLog_withFS]
      cases hc : racy.comments with
      | none =>
        rw [hc] at hA
        dsimp only at hA
        injection hA with h1 h2
        subst h1; subst h2
        rfl
      | some cnt =>
        rw [hc] at hA
        dsimp only at hA ⊢
        split at hA
        · rename_i hle
          rw [if_pos hle]
          injection hA with h1 h2
          subst h1; subst h2
          rfl
        · rename_i hle
          rw [if_neg hle]
          split at hA
          · rename_i hdc
            rw [if_pos hdc, toLog_fs, ← toLog_withFS, commentLoop_toLog]
            split at hA
            · rename_i s2 hcl
              rw [hcl]
              dsimp only
              injection hA with h1 h2
              subst h1; subst h2
              rw [← toLog_printf]
            · rename_i s2 r2 hne hcl
              rw [hcl]
              dsimp only
              injection hA with h1 h2
              subst h1; subst h2
              cases r2 with
              | success => exact absurd rfl hne
              | failure e => rfl
              | fatal => rfl
              | panicked => rfl
              | diverged => rfl
          · rename_i hdc
            rw [if_neg hdc]
            injection hA with h1 h2
            subst h1; subst h2
            rfl
    · rename_i hw
      rw [if_neg hw]
      injection hA with h1 h2
      subst h1; subst h2
      rfl
  · rename_i hd
    rw [if_neg hd]
    injection hA with h1 h2
    subst h1; subst h2
    rfl

theorem issuesJoin_toLog (env : Env) (fuel : Nat) :
    ∀ (prs : List (Issue × Issue)) (s : M1.St),
      M2.issuesJoin env fuel (toLog s) prs
        = (toLog (M1.issuesJoin env fuel s prs).1,
           (M1.issuesJoin env fuel s prs).2) := by
  intro prs
  induction prs with
  | nil => intro s; rfl
  | cons pr rest ih =>
    intro s
    rcases pr with ⟨issue, racy⟩
    simp only [M1.issuesJoin, M2.issuesJoin]
    cases hn : issue.number with
    | none => rfl
    | some num =>
      dsimp only
      rcases hu : M1.issueUnit env fuel s issue num racy with ⟨s1, r1⟩
      have hu2 : M2.issueUnit env fuel (toLog s) issue num racy = (toLog s1, r1) := by
        rw [issueUnit_toLog, hu]
      rw [hu2]
      cases r1 with
      | success => exact ih s1
      | failure e =>
        dsimp only
        rcases hj : M1.issuesJoin env fuel s1 rest with ⟨s2, q⟩
        have hj2 : M2.issuesJoin env fuel (toLog s1) rest = (toLog s2, q) := by
          rw [ih s1, hj]
        rw [hj2]
        cases q with
        | res o => rfl
        | fatal => rfl
        | panicked => rfl
        | diverged => rfl
      | fatal => rfl
      | panicked => rfl
      | diverged => rfl

theorem writeIssues_toLog (env : Env) (fuel : Nat) (s : M1.St)
    (issues reads : List Issue) :
    M2.writeIssues env fuel (toLog s) issues reads
      = (toLog (M1.writeIssues env fuel s issues reads).1,
         (M1.writeIssues env fuel s issues reads).2) := by
  unfold M1.writeIssues M2.writeIssues
  dsimp only
  rw [← toLog_printf, issuesJoin_toLog]

theorem mainLoop_toLog (env : Env) (fuel : Nat) (reads : Nat → List Issue) :
    ∀ (f : Nat) (s : M1.St) (page : Nat),
      M2.mainLoop env fuel reads f (toLog s) page
        = (toLog (M1.mainLoop env fuel reads f s page).1,
           (M1.mainLoop env fuel reads f s page).2) := by
  intro f
  induction f with
  | zero => intro s page; rfl
  | succ f ih =>
    intro s page
    rw [M1.mainLoop, M2.mainLoop]
    dsimp only
    rw [toLog_logCall]
    by_cases herr : env.issuesErr page
    · rw [if_pos herr, if_pos herr, ← toLog_fatalf]
    · rw [if_neg herr, if_neg herr]
      rw [writeIssues_toLog]
      rcases hA : M1.writeIssues env fuel
          (M1.St.withFS (M1.St.printf s (Msg.listByRepoCall page))
            ((M1.St.printf s (Msg.listByRepoCall page)).fs.callEvent
              (Event.listIssues page)))
          (env.issuePages page).1 (reads page) with ⟨s1, r1⟩
      dsimp only
      cases r1 with
      | res o =>
        cases o with
        | none =>
          dsimp only
          by_cases hz : (env.issuePages page).2 = 0
          · rw [if_pos hz, if_pos hz, ← toLog_printf]
          · rw [if_neg hz, if_neg hz, ih]
        | some e => dsimp only; rw [← toLog_fatalf]
      | fatal => rfl
      | panicked => rfl
      | diverged => rfl

theorem mainRun_toLog (env : Env) (fuel : Nat) (reads : Nat → List Issue)
    (s : M1.St) :
    M2.mainRun env fuel reads (toLog s)
      = (toLog (M1.mainRun env fuel reads s).1,
         (M1.mainRun env fuel reads s).2) := by
  unfold M1.mainRun M2.mainRun
  by_cases ho : env.openOk
  · rw [if_pos ho, if_pos ho, mainLoop_toLog]
  · rw [if_neg ho, if_neg ho, ← toLog_fatalf]

/-- **C8**: the two copies of the program are behaviourally equivalent on
the mirrored output.  From their initial states, for every environment
(the same fetched issue pages and comment pages), every fuel bound and
every schedule of the racy reads, the two copies end with the same
filesystem — the same files with the same paths, contents and permission
bits, the same directories, and the same trace of API and write calls —
and the same run outcome; they differ only in the logging component of
the state. -/
theorem c8_copies_equivalent (env : Env) (fuel : Nat) (reads : Nat → List Issue) :
    (M2.mainRun env fuel reads M2.St.init).1.fs
      = (M1.mainRun env fuel reads M1.St.init).1.fs
    ∧ (M2.mainRun env fuel reads M2.St.init).2
      = (M1.mainRun env fuel reads M1.St.init).2 := by
  have h : M2.mainRun env fuel reads M2.St.init
      = (toLog (M1.mainRun env fuel reads M1.St.init).1,
         (M1.mainRun env fuel reads M1.St.init).2) :=
    mainRun_toLog env fuel reads M1.St.init
  rw [h]
  exact ⟨rfl, rfl⟩
